import Mathlib

/-!
# go-tidb-loadtest: a verification development of `main.go`

The program is a small load generator: `main` launches `reqNum` goroutines
running `load`, each assigned a host round-robin and gated by a buffered
channel of capacity `parallelNum`; `load` runs
`insert → update → deleteOne → insert` against the host's connection.

The embedding is shallow:

* Go `string` is `String`, `byte` is `Fin 256`, `int` is `Int`/`Nat`;
* `time.Now()` and `crypto/rand.Read` are inputs of the functions that call them;
* a row operation that panics or calls `log.Fatal` has the `abort` outcome; in a
  run, a panicking goroutine first runs its deferred calls while the others go
  on, then the process ends; `log.Fatal` ends the process at once;
* `database/sql` is an interface `Conn` (what `Exec` and `Query` return), with
  the cursor discipline of `sql.Rows` (`Next`, `Scan`) written out;
* goroutines are a step function over program counters, one step for each
  channel operation, `WaitGroup` operation and database round trip.
-/

namespace LoadTest

/-! ## Unique code generator (`generateUID`, main.go 189-197) -/

/-- A Go `byte`. -/
abbrev Byte := Fin 256

/-- Errors returned by library calls (`error` values). -/
inductive Err
  /-- The `io.EOF` with which a driver ends a result set. -/
  | eof
  /-- The `sql: Rows are closed` of `Rows.Scan`. -/
  | rowsClosed
  /-- The `sql: Scan called without calling Next` of `Rows.Scan`. -/
  | scanWithoutNext
  /-- Any other error, by its message. -/
  | other (msg : String)
  deriving DecidableEq, Repr

/-- How a call ends abnormally, and with it in the end the process:
`panic(err)` or `log.Fatal(msg)`. -/
inductive Abort
  | panic (err : Err)
  | fatal (msg : String)
  deriving DecidableEq, Repr

/-- The digit table of `encoding/hex` and of the `%x` verb. -/
def hextable : List Char := "0123456789abcdef".toList

/-- The character `hextable[n]`. -/
def hexDigit (n : Nat) : Char := hextable.getD n '0'

/-- The characters of `hex.EncodeToString(src)`, also of `%x` on a byte slice:
for each byte `v`, `hextable[v>>4]` then `hextable[v&0x0f]`. -/
def encodeChars : List Byte → List Char
  | [] => []
  | v :: rest => hexDigit (v.val >>> 4) :: hexDigit (v.val &&& 0x0f) :: encodeChars rest

/-- Go `hex.EncodeToString`. -/
def EncodeToString (src : List Byte) : String := String.mk (encodeChars src)

/-- The decimal digit character `'0' + d`. -/
def digitChar (d : Nat) : Char := Char.ofNat (48 + d)

/-- The digit loop of `fmt` for an unsigned value: the last digit is produced
first and put in front of what is already there. `fuel` bounds the number of
digits; `u + 1` is always enough. -/
def fmtUint : Nat → Nat → List Char → List Char
  | 0, _, acc => acc
  | fuel + 1, u, acc =>
    if 10 ≤ u then fmtUint fuel (u / 10) (digitChar (u % 10) :: acc)
    else digitChar u :: acc

/-- The verb `%d` on an integer: a minus sign for a negative value, then the
decimal digits of the magnitude. -/
def fmtD (n : Int) : List Char :=
  (if n < 0 then ['-'] else []) ++ fmtUint (n.natAbs + 1) n.natAbs []

/-- Go `fmt.Sprintf("%d%x", t, buf)` for an integer `t` and a byte slice `buf`. -/
def sprintfDX (t : Int) (buf : List Byte) : String :=
  String.mk (fmtD t ++ encodeChars buf)

/-- Go `[]byte(str)` for a string of ASCII characters, where each character is
one byte, its code point. -/
def bytesOf (s : String) : List Byte :=
  s.toList.map (fun c => (⟨c.toNat % 256, Nat.mod_lt _ (by decide)⟩ : Byte))

/-- Go `generateUID` as a function of what it reads: `unix` is
`time.Now().Unix()`, `rd` is what `rand.Read(buf)` left in the 10-byte buffer,
or the error it returned (then `generateUID` panics). -/
def generateUID (unix : Int) (rd : Except Err (List Byte)) : Except Abort String :=
  match rd with
  | .error err => .error (.panic err)
  | .ok buf =>
    let str := sprintfDX unix (buf.take 10)
    .ok (EncodeToString (bytesOf str))

/-- The code as the specification describes it: the timestamp's decimal digits
followed by the bytes of the buffer themselves, hex-encoded once. -/
def specUID (unix : Int) (buf : List Byte) : String :=
  EncodeToString (bytesOf (String.mk (fmtD unix)) ++ buf)

/-- Equality of `Except` values is decidable. -/
instance instDecEqExcept {ε α : Type} [DecidableEq ε] [DecidableEq α] : DecidableEq (Except ε α)
  | .ok a, .ok b =>
    if h : a = b then isTrue (by rw [h]) else isFalse (by intro h2; cases h2; exact h rfl)
  | .error a, .error b =>
    if h : a = b then isTrue (by rw [h]) else isFalse (by intro h2; cases h2; exact h rfl)
  | .ok _, .error _ => isFalse (by intro h; cases h)
  | .error _, .ok _ => isFalse (by intro h; cases h)

/-- The value of a decimal digit character. -/
def digitVal (c : Char) : Nat := c.toNat - 48

/-- The number a list of decimal digits denotes, most significant first. -/
def decVal (l : List Char) : Nat := l.foldl (fun a c => 10 * a + digitVal c) 0

/-- Reading back what `%d` printed. -/
def parseD (l : List Char) : Int :=
  match l with
  | '-' :: rest => - (decVal rest : Int)
  | _ => (decVal l : Int)

/-! ## Data model (main.go 30-37) -/

/-- Go `time.Time`, as the distance of the instant from the zero time; `0` is
the zero value. -/
abbrev Time := Int

/-- Go `Test`, a row of the table `test`. -/
structure Test where
  ID : Int
  Code : String
  Text : String
  IsTest : Bool
  CreatedAt : Time
  deriving DecidableEq, Repr

/-- Go `&Test{}`: every field has its zero value. -/
def Test.zero : Test := { ID := 0, Code := "", Text := "", IsTest := false, CreatedAt := 0 }

/-! ## The `database/sql` interface -/

/-- Go `sql.Result`: what its two methods return. -/
structure Result where
  rowsAffected : Except Err Int
  lastInsertId : Except Err Int

/-- Go `sql.Rows`, a cursor over rows of type `α`. `pending`, `endErr` and
`convErr` are what the driver is going to deliver: the rows not yet fetched, the
error with which it ends the result set (`io.EOF` when the set was read to its
end) and the error of converting the fetched columns into the destinations of
`Scan`, if any. `lastcols`, `lasterr` and `closed` are the fields of the same
names: the row fetched last, the error of the last fetch, and whether the
cursor was closed. -/
structure Rows (α : Type) where
  pending : List α
  endErr : Err := Err.eof
  convErr : Option Err := none
  lastcols : Option α := none
  lasterr : Option Err := none
  closed : Bool := false

/-- Go `Rows.Next`: fetches the next row and reports whether there was one. A
fetch that fails, also with `io.EOF` at the end of the result set, records the
error and closes the cursor. -/
def Rows.Next {α : Type} (rs : Rows α) : Bool × Rows α :=
  if rs.closed then (false, rs)
  else
    match rs.pending with
    | r :: rest => (true, { rs with lastcols := some r, pending := rest })
    | [] => (false, { rs with lasterr := some rs.endErr, closed := true })

/-- Go `Rows.Scan`: the error of the last fetch when it is not `io.EOF`, else
`sql: Rows are closed` on a closed cursor, else
`sql: Scan called without calling Next` when no row was fetched, else the
conversion of the fetched row. -/
def Rows.Scan {α : Type} (rs : Rows α) : Except Err α :=
  match rs.lasterr with
  | some Err.eof | none =>
    if rs.closed then .error Err.rowsClosed
    else
      match rs.lastcols with
      | none => .error Err.scanWithoutNext
      | some r =>
        match rs.convErr with
        | some e => .error e
        | none => .ok r
  | some e => .error e

/-- The statements the program passes to `db.Exec`. -/
inductive Stmt
  /-- The statement `insert into test(code, text, is_test, created_at) values(?, ?, ?, ?)`. -/
  | insertRow (code text : String) (isTest : Bool) (createdAt : Time)
  /-- The statement `update test set is_test = false where code = ?`. -/
  | updateFlag (code : String)
  /-- The statement `delete from test where code = ?`. -/
  | deleteCode (code : String)
  deriving DecidableEq, Repr

/-- The connection registry `db` seen from the program: what `db[host].Exec` and
`db[host].Query` return in a store state `σ`, and the store state they leave.
`queryCode host code` is `select * from test where code = ?` and
`queryCount host` is `select count(*) from test`. -/
structure Conn (σ : Type) where
  exec : String → Stmt → σ → Except Err Result × σ
  queryCode : String → String → σ → Except Err (Rows Test) × σ
  queryCount : String → σ → Except Err (Rows Int) × σ

/-- The library calls of the row operations that return an `error`. -/
inductive Call
  | Exec | Query | Scan | RowsAffected | LastInsertId
  deriving DecidableEq, Repr

/-- One library call that was made, and whether it returned an error. -/
structure Event where
  call : Call
  failed : Bool
  deriving DecidableEq, Repr

/-- The world a row operation runs in: the store and the log of the library
calls made so far. -/
structure World (σ : Type) where
  db : σ
  log : List Event

/-- How a piece of the program ends: it returns `a`, or it is left by a panic or
by `log.Fatal`. -/
inductive Outcome (σ α : Type)
  | ok (a : α) (w : World σ)
  | abort (x : Abort) (w : World σ)

/-- The returned value, or the abort. -/
def Outcome.result {σ α : Type} : Outcome σ α → Except Abort α
  | .ok a _ => .ok a
  | .abort x _ => .error x

/-- The world in which the piece of the program ended. -/
def Outcome.world {σ α : Type} : Outcome σ α → World σ
  | .ok _ w => w
  | .abort _ w => w

/-- Whether the piece was left by a panic or by `log.Fatal`. -/
def Outcome.aborted {σ α : Type} : Outcome σ α → Bool
  | .ok _ _ => false
  | .abort _ _ => true

/-- A piece of the program: from a world to an outcome. -/
def Run (σ α : Type) : Type := World σ → Outcome σ α

/-- Returning a value. -/
def Run.pure {σ α : Type} (a : α) : Run σ α := fun w => .ok a w

/-- Sequencing: after a panic or `log.Fatal` nothing of what follows runs. -/
def Run.bind {σ α β : Type} (m : Run σ α) (f : α → Run σ β) : Run σ β := fun w =>
  match m w with
  | .ok a w1 => f a w1
  | .abort x w1 => .abort x w1

instance instMonadRun {σ : Type} : Monad (Run σ) where
  pure := Run.pure
  bind := Run.bind

/-- Whether a call returned an error. -/
def isErr {α : Type} : Except Err α → Bool
  | .ok _ => false
  | .error _ => true

/-- Appends a library call and its status to the log. -/
def World.note {σ : Type} (w : World σ) (call : Call) (failed : Bool) : World σ :=
  { w with log := w.log ++ [{ call := call, failed := failed }] }

/-- Go `connect(dbHost).Exec(sql, args...)`. -/
def dbExec {σ : Type} (c : Conn σ) (dbHost : String) (stmt : Stmt) : Run σ (Except Err Result) :=
  fun w =>
    let r := c.exec dbHost stmt w.db
    .ok r.1 (World.note { w with db := r.2 } Call.Exec (isErr r.1))

/-- Go `connect(dbHost).Query("select * from test where code = ?", code)`. -/
def dbQueryCode {σ : Type} (c : Conn σ) (dbHost code : String) : Run σ (Except Err (Rows Test)) :=
  fun w =>
    let r := c.queryCode dbHost code w.db
    .ok r.1 (World.note { w with db := r.2 } Call.Query (isErr r.1))

/-- Go `connect(dbHost).Query("select count(*) from test")`. -/
def dbQueryCount {σ : Type} (c : Conn σ) (dbHost : String) : Run σ (Except Err (Rows Int)) :=
  fun w =>
    let r := c.queryCount dbHost w.db
    .ok r.1 (World.note { w with db := r.2 } Call.Query (isErr r.1))

/-- Go `rows.Scan(dest...)`. -/
def rowsScan {σ α : Type} (rs : Rows α) : Run σ (Except Err α) := fun w =>
  .ok rs.Scan (w.note Call.Scan (isErr rs.Scan))

/-- Go `result.RowsAffected()`. -/
def rowsAffected {σ : Type} (result : Result) : Run σ (Except Err Int) := fun w =>
  .ok result.rowsAffected (w.note Call.RowsAffected (isErr result.rowsAffected))

/-- Go `result.LastInsertId()`. -/
def lastInsertId {σ : Type} (result : Result) : Run σ (Except Err Int) := fun w =>
  .ok result.lastInsertId (w.note Call.LastInsertId (isErr result.lastInsertId))

/-- Go `fatalIfErr` (main.go 182-186), applied to the pair `x, err` a call
returned: panics when `err != nil`, else goes on with `x`. -/
def fatalIfErr {σ α : Type} (r : Except Err α) : Run σ α := fun w =>
  match r with
  | .ok a => .ok a w
  | .error err => .abort (Abort.panic err) w

/-- Go `log.Fatal(msg)`. -/
def logFatal {σ α : Type} (msg : String) : Run σ α := fun w => .abort (Abort.fatal msg) w

/-- What one call of `generateUID` reads: the clock and the random source. -/
structure Entropy where
  unix : Int
  read : Except Err (List Byte)

/-- Go `generateUID()` inside a row operation: a panic of it goes through the
operation. -/
def callGenerateUID {σ : Type} (rnd : Entropy) : Run σ String := fun w =>
  match generateUID rnd.unix rnd.read with
  | .ok code => .ok code w
  | .error x => .abort x w

/-! ## Row operations (main.go 88-180) -/

/-- Go `insert` (main.go 88-104). `rnd` is what `generateUID` reads if it is
called, `now` the `time.Now()` of the inserted row. -/
def insert {σ : Type} (c : Conn σ) (debug : Bool) (rnd : Entropy) (now : Time)
    (dbHost code : String) : Run σ String := do
  let code ← if code = "" then callGenerateUID rnd else pure code
  let result ← fatalIfErr (← dbExec c dbHost (Stmt.insertRow code "test" true now))
  if debug then
    let _rows ← fatalIfErr (← rowsAffected result)
    let _lastID ← fatalIfErr (← lastInsertId result)
  return code

/-- Go `selectOne` (main.go 124-138): the result of `rows.Next()` is dropped,
and an error of `rows.Scan` goes to `fatalIfErr`. -/
def selectOne {σ : Type} (c : Conn σ) (dbHost code : String) : Run σ Test := do
  let rows ← fatalIfErr (← dbQueryCode c dbHost code)
  let rows := rows.Next.2
  let t ← fatalIfErr (← rowsScan rows)
  return t

/-- The first part of Go `update` (main.go 107-117): the statement and, in debug
mode, the reading of its result. The error of `LastInsertId` is not passed to
`fatalIfErr`: that call is commented out in the source. -/
def updateExec {σ : Type} (c : Conn σ) (debug : Bool) (dbHost code : String) : Run σ Unit := do
  let result ← fatalIfErr (← dbExec c dbHost (Stmt.updateFlag code))
  if debug then
    let _rows ← fatalIfErr (← rowsAffected result)
    let _lastID ← lastInsertId result

/-- The second part of Go `update` (main.go 118-121): the row is read again and
the process ends with `log.Fatal` when its flag is still set. -/
def updateCheck {σ : Type} (c : Conn σ) (dbHost code : String) : Run σ Unit := do
  let t ← selectOne c dbHost code
  if t.IsTest then
    logFatal "unexpected is_test = true when after update"

/-- Go `update` (main.go 106-122). -/
def update {σ : Type} (c : Conn σ) (debug : Bool) (dbHost code : String) : Run σ Unit := do
  updateExec c debug dbHost code
  updateCheck c dbHost code

/-- Go `deleteOne` (main.go 140-145). -/
def deleteOne {σ : Type} (c : Conn σ) (dbHost code : String) : Run σ Unit := do
  let _ ← fatalIfErr (← dbExec c dbHost (Stmt.deleteCode code))

/-- Go `selectCount` (main.go 166-180). -/
def selectCount {σ : Type} (c : Conn σ) (dbHost : String) : Run σ Int := do
  let rows ← fatalIfErr (← dbQueryCount c dbHost)
  let rows := rows.Next.2
  let count ← fatalIfErr (← rowsScan rows)
  return count

/-- What one work unit reads from the clock and the random source: for the first
and for the second `insert` of `load`. -/
structure UnitEnv where
  rnd1 : Entropy
  now1 : Time
  rnd2 : Entropy
  now2 : Time

/-- The body of Go `load` (main.go 66-69), run without interruption. -/
def loadBody {σ : Type} (c : Conn σ) (debug : Bool) (e : UnitEnv) (host : String) : Run σ Unit := do
  let code ← insert c debug e.rnd1 e.now1 host ""
  update c debug host code
  deleteOne c host code
  let _ ← insert c debug e.rnd2 e.now2 host code

/-! ## The store: one table `test` for each host -/

/-- The table `test` of one host: its rows in the order of insertion and the
identifier the store gives to the next row. -/
structure Table where
  rows : List Test
  nextID : Int
  deriving DecidableEq, Repr

/-- An empty table. -/
def Table.empty : Table := { rows := [], nextID := 1 }

/-- A statement on a table that executes without error: `insert` adds a row,
`update` clears the flag of every row with the code, `delete` removes every
row with the code. -/
def Table.exec (t : Table) : Stmt → Result × Table
  | .insertRow code text isTest createdAt =>
    ({ rowsAffected := .ok 1, lastInsertId := .ok t.nextID },
     { rows := t.rows ++ [{ ID := t.nextID, Code := code, Text := text, IsTest := isTest,
                            CreatedAt := createdAt }],
       nextID := t.nextID + 1 })
  | .updateFlag code =>
    ({ rowsAffected := .ok (t.rows.countP (fun r => r.Code = code && r.IsTest)),
       lastInsertId := .ok 0 },
     { t with rows := t.rows.map (fun r => if r.Code = code then { r with IsTest := false } else r) })
  | .deleteCode code =>
    ({ rowsAffected := .ok (t.rows.countP (fun r => r.Code = code)), lastInsertId := .ok 0 },
     { t with rows := t.rows.filter (fun r => r.Code ≠ code) })

/-- The store in which no call fails: a table for each host, every statement
takes effect at once, a query delivers the matching rows in table order. -/
def tableConn : Conn (String → Table) where
  exec host stmt db :=
    let r := (db host).exec stmt
    (.ok r.1, Function.update db host r.2)
  queryCode host code db :=
    (.ok { pending := (db host).rows.filter (fun r => r.Code = code) }, db)
  queryCount host db :=
    (.ok { pending := [((db host).rows.length : Int)] }, db)

/-- The rows of a host's table that have the given code, in table order. -/
def matching (db : String → Table) (host code : String) : List Test :=
  (db host).rows.filter (fun r => r.Code = code)

/-- Whether an outcome is that of an operation that went past no failed call of
the kinds selected by `fatal`: if such a call is in the log then the operation
ended in an abort, and the failed call is the last one made. -/
def guarded {σ α : Type} (fatal : Call → Bool) (out : Outcome σ α) : Bool :=
  (!(out.world.log.any (fun e => e.failed && fatal e.call)) || out.aborted) &&
    !(out.world.log.dropLast.any (fun e => e.failed && fatal e.call))

/-- A store whose statements succeed but whose results cannot report a last
insert id (the case the comment at main.go 115 names), holding one row with a
cleared flag for every code. -/
def noLastIdConn : Conn Unit where
  exec _ _ _ := (.ok { rowsAffected := .ok 1, lastInsertId := .error (.other "not supported") }, ())
  queryCode _ code _ :=
    (.ok { pending := [{ ID := 1, Code := code, Text := "test", IsTest := false, CreatedAt := 0 }] },
      ())
  queryCount _ _ := (.ok { pending := [1] }, ())

/-- A store no statement of which can be executed: `Exec` and `Query` return an
error (an unreachable host). -/
def downConn : Conn Unit where
  exec _ _ _ := (.error (.other "connection refused"), ())
  queryCode _ _ _ := (.error (.other "connection refused"), ())
  queryCount _ _ := (.error (.other "connection refused"), ())

/-- A store in which a write is not yet visible to the read that follows it:
statements succeed, and the query delivers a row whose flag is still set. -/
def staleConn : Conn Unit where
  exec _ _ _ := (.ok { rowsAffected := .ok 1, lastInsertId := .ok 0 }, ())
  queryCode _ code _ :=
    (.ok { pending := [{ ID := 1, Code := code, Text := "test", IsTest := true, CreatedAt := 0 }] },
      ())
  queryCount _ _ := (.ok { pending := [1] }, ())

/-! ## Scheduler (`main` and `load`, main.go 39-70) -/

/-- The flags `main` reads: `hosts` is `strings.Split(*dbHosts, ",")`, `reqNum`
is `*reqNum` (a negative value launches nothing, like `0`), `parallelNum` is
`*parallelNum`, the capacity of the channel `sema` (with a negative value `make`
panics before anything is launched). -/
structure Config where
  hosts : List String
  reqNum : Nat
  parallelNum : Nat
  debug : Bool

/-- Where a goroutine running `load` stands: the statement it executes next. -/
inductive PC
  /-- At `sema <- 1` (line 64). -/
  | acquire
  /-- At `code := insert(host, "")` (line 66). -/
  | insert1
  /-- In `update(host, code)` (line 67), at the statement. -/
  | updateExec
  /-- In `update(host, code)` (line 67), at the re-read of the row. -/
  | updateCheck
  /-- At `deleteOne(host, code)` (line 68). -/
  | delete
  /-- At `insert(host, code)` (line 69). -/
  | insert2
  /-- At the deferred `<-sema` (line 65). -/
  | release
  /-- At the deferred `wg.Done()` (line 63). -/
  | wgDone
  /-- Returned. -/
  | finished
  /-- Panicking with `x`, at the deferred `<-sema` (line 65). -/
  | unwindRelease (x : Abort)
  /-- Panicking with `x`, at the deferred `wg.Done()` (line 63). -/
  | unwindDone (x : Abort)
  /-- Panicking with `x`, every deferred call made: the runtime is about to end
  the process. -/
  | dying (x : Abort)
  deriving DecidableEq, Repr

/-- Whether a goroutine at this point has sent to `sema` and not yet received
from it: it is running the body of `load` or is about to release its slot, on
its return or while it panics. -/
def PC.holdsSlot : PC → Bool
  | .insert1 | .updateExec | .updateCheck | .delete | .insert2 | .release => true
  | .unwindRelease _ => true
  | _ => false

/-- Whether a goroutine at this point has not yet called `wg.Done()`. -/
def PC.pending : PC → Bool
  | .finished | .dying _ => false
  | _ => true

/-- Whether a goroutine at this point is panicking. -/
def PC.unwinding : PC → Bool
  | .unwindRelease _ | .unwindDone _ | .dying _ => true
  | _ => false

/-- A goroutine `go load(sema, &wg, host)`: its argument `host`, the `hostIndex`
from which `main` took it, its program counter and its local variable `code`. -/
structure Goroutine where
  host : String
  hostIndex : Nat
  pc : PC
  code : String
  deriving DecidableEq, Repr

/-- Where `main` stands. -/
inductive MainPC
  /-- In the loop of lines 49-54. -/
  | loop
  /-- At `wg.Wait()` (line 55). -/
  | wait
  /-- At `selectCount(hosts[0])` (line 58). -/
  | report
  /-- Panicking with `x`; `main` has no deferred call, the runtime is about to
  end the process. -/
  | dying (x : Abort)
  /-- Returned: the process has exited. -/
  | exited
  deriving DecidableEq, Repr

/-- The state of a run: `i` is the loop variable of `main`, `gs` the goroutines
launched so far in launch order, `sema` the number of values in the channel,
`wg` the counter of the wait group, `aborted` the panic or fatal error with
which the process has ended, `count` the row count `main` printed. A panic
ends the process only after the deferred calls of the panicking goroutine;
until then `aborted` is `none` and every other party goes on. -/
structure Sys (σ : Type) where
  main : MainPC
  i : Nat
  gs : List Goroutine
  sema : Nat
  wg : Nat
  world : World σ
  aborted : Option Abort
  count : Option Int

/-- The state in which `main` enters its loop. -/
def Sys.init {σ : Type} (w : World σ) : Sys σ :=
  { main := .loop, i := 0, gs := [], sema := 0, wg := 0, world := w, aborted := none,
    count := none }

/-- Who takes the next step: `main`, or the goroutine launched as number `j`. -/
inductive Action
  | main
  | unit (j : Nat)
  deriving DecidableEq, Repr

/-- The state after goroutine `j`, which was `g`, ran a row operation with
outcome `out`. On a normal return the goroutine goes on as `next`. On a panic
it starts to unwind: its deferred calls `<-sema` and `wg.Done()` are still to
run, and the process lives on until they have. `log.Fatal` ends the process at
once (`os.Exit` runs no deferred call). -/
def Sys.settle {σ α : Type} (s : Sys σ) (j : Nat) (g : Goroutine) (out : Outcome σ α)
    (next : α → Goroutine) : Sys σ :=
  match out with
  | .ok a w => { s with world := w, gs := s.gs.set j (next a) }
  | .abort (.panic err) w =>
    { s with world := w, gs := s.gs.set j { g with pc := .unwindRelease (.panic err) } }
  | .abort (.fatal msg) w => { s with world := w, aborted := some (.fatal msg) }

/-- The state after a call of `main` failed in world `w`: a panic leaves `main`
dying, `log.Fatal` ends the process at once. -/
def Sys.mainFails {σ : Type} (s : Sys σ) (x : Abort) (w : World σ) : Sys σ :=
  match x with
  | .panic err => { s with world := w, main := .dying (.panic err) }
  | .fatal msg => { s with world := w, aborted := some (.fatal msg) }

/-- One step of `main`, `none` when `main` is blocked or has returned. In the
loop: `hostIndex := i % len(hosts)`, `host := hosts[hostIndex]`, `wg.Add(1)`,
`go load(sema, &wg, host)`. No operation on `sema` is part of it. The step of
a dying `main` is the exit of the process. -/
def stepMain {σ : Type} (cfg : Config) (c : Conn σ) (s : Sys σ) : Option (Sys σ) :=
  match s.main with
  | .loop =>
    if s.i < cfg.reqNum then
      let hostIndex := s.i % cfg.hosts.length
      match cfg.hosts[hostIndex]? with
      | none => some (s.mainFails (.panic (.other "runtime error")) s.world)
      | some host =>
        some { s with
          wg := s.wg + 1
          gs := s.gs ++ [{ host := host, hostIndex := hostIndex, pc := .acquire, code := "" }]
          i := s.i + 1 }
    else some { s with main := .wait }
  | .wait => if s.wg = 0 then some { s with main := .report } else none
  | .report =>
    match cfg.hosts[0]? with
    | none => some (s.mainFails (.panic (.other "runtime error")) s.world)
    | some host =>
      match selectCount c host s.world with
      | .ok n w => some { s with world := w, count := some n, main := .exited }
      | .abort x w => some (s.mainFails x w)
  | .dying x => some { s with aborted := some x }
  | .exited => none

/-- One step of goroutine `j`, `none` when it is blocked, has returned or was
never launched. `sema <- 1` needs room in the channel, `<-sema` a value in it.
A panicking goroutine runs its deferred calls, last registered first, and then
the process ends with its panic. -/
def stepUnit {σ : Type} (cfg : Config) (c : Conn σ) (env : Nat → UnitEnv) (s : Sys σ) (j : Nat) :
    Option (Sys σ) :=
  match s.gs[j]? with
  | none => none
  | some g =>
    match g.pc with
    | .acquire =>
      if s.sema < cfg.parallelNum then
        some { s with sema := s.sema + 1, gs := s.gs.set j { g with pc := .insert1 } }
      else none
    | .insert1 =>
      some (s.settle j g (insert c cfg.debug (env j).rnd1 (env j).now1 g.host "" s.world)
        (fun code => { g with code := code, pc := .updateExec }))
    | .updateExec =>
      some (s.settle j g (updateExec c cfg.debug g.host g.code s.world)
        (fun _ => { g with pc := .updateCheck }))
    | .updateCheck =>
      some (s.settle j g (updateCheck c g.host g.code s.world) (fun _ => { g with pc := .delete }))
    | .delete =>
      some (s.settle j g (deleteOne c g.host g.code s.world) (fun _ => { g with pc := .insert2 }))
    | .insert2 =>
      some (s.settle j g (insert c cfg.debug (env j).rnd2 (env j).now2 g.host g.code s.world)
        (fun _ => { g with pc := .release }))
    | .release =>
      if 0 < s.sema then
        some { s with sema := s.sema - 1, gs := s.gs.set j { g with pc := .wgDone } }
      else none
    | .wgDone =>
      if 0 < s.wg then
        some { s with wg := s.wg - 1, gs := s.gs.set j { g with pc := .finished } }
      else
        some { s with
          gs := s.gs.set j
            { g with pc := .dying (.panic (.other "sync: negative WaitGroup counter")) } }
    | .finished => none
    | .unwindRelease x =>
      if 0 < s.sema then
        some { s with sema := s.sema - 1, gs := s.gs.set j { g with pc := .unwindDone x } }
      else none
    | .unwindDone x =>
      if 0 < s.wg then
        some { s with wg := s.wg - 1, gs := s.gs.set j { g with pc := .dying x } }
      else
        some { s with
          gs := s.gs.set j
            { g with pc := .dying (.panic (.other "sync: negative WaitGroup counter")) } }
    | .dying x => some { s with aborted := some x }

/-- One step of the run, `none` when the chosen party cannot move. Nothing
moves once the process has ended: `aborted` is set by `log.Fatal` and by the
last step of a panicking party, and the process exits when `main` returns. -/
def step? {σ : Type} (cfg : Config) (c : Conn σ) (env : Nat → UnitEnv) (s : Sys σ) (a : Action) :
    Option (Sys σ) :=
  if s.aborted.isSome || s.main = .exited then none
  else
    match a with
    | .main => stepMain cfg c s
    | .unit j => stepUnit cfg c env s j

/-- One step of the run; a party that cannot move leaves the state as it is. -/
def step {σ : Type} (cfg : Config) (c : Conn σ) (env : Nat → UnitEnv) (s : Sys σ) (a : Action) :
    Sys σ :=
  (step? cfg c env s a).getD s

/-- The state a schedule leads to from `s`. -/
def runFrom {σ : Type} (cfg : Config) (c : Conn σ) (env : Nat → UnitEnv) (s : Sys σ)
    (sched : List Action) : Sys σ :=
  sched.foldl (step cfg c env) s

/-- The state a schedule leads to from the start of `main`'s loop. -/
def run {σ : Type} (cfg : Config) (c : Conn σ) (env : Nat → UnitEnv) (w : World σ)
    (sched : List Action) : Sys σ :=
  runFrom cfg c env (Sys.init w) sched

/-- The number of goroutines that have acquired a slot and not yet released it. -/
def Sys.holding {σ : Type} (s : Sys σ) : Nat := s.gs.countP (fun g => g.pc.holdsSlot)

/-- The number of goroutines launched and not yet completed. -/
def Sys.inFlight {σ : Type} (s : Sys σ) : Nat := s.gs.countP (fun g => g.pc ≠ .finished)

/-- The number of goroutines that have not yet called `wg.Done()`. -/
def Sys.pending {σ : Type} (s : Sys σ) : Nat := s.gs.countP (fun g => g.pc.pending)

/-- The number of goroutines launched for host index `k`. -/
def Sys.assigned {σ : Type} (s : Sys σ) (k : Nat) : Nat := s.gs.countP (fun g => g.hostIndex = k)

/-- Whether every step of the schedule is one the chosen party can take. -/
def validFrom {σ : Type} (cfg : Config) (c : Conn σ) (env : Nat → UnitEnv) :
    Sys σ → List Action → Bool
  | _, [] => true
  | s, a :: rest =>
    match step? cfg c env s a with
    | none => false
    | some s1 => validFrom cfg c env s1 rest

/-- The part of the body of `load` that a goroutine at `pc` with the local
variable `code` still has to run. -/
def loadFrom {σ : Type} (c : Conn σ) (debug : Bool) (e : UnitEnv) (host : String) :
    PC → String → Run σ Unit
  | .insert1, _ => loadBody c debug e host
  | .updateExec, code => do
    updateExec c debug host code
    updateCheck c host code
    deleteOne c host code
    let _ ← insert c debug e.rnd2 e.now2 host code
  | .updateCheck, code => do
    updateCheck c host code
    deleteOne c host code
    let _ ← insert c debug e.rnd2 e.now2 host code
  | .delete, code => do
    deleteOne c host code
    let _ ← insert c debug e.rnd2 e.now2 host code
  | .insert2, code => do
    let _ ← insert c debug e.rnd2 e.now2 host code
  | _, _ => pure ()

/-- The number of steps a goroutine at this point still takes inside the body
of `load`. -/
def PC.bodySteps : PC → Nat
  | .insert1 => 5
  | .updateExec => 4
  | .updateCheck => 3
  | .delete => 2
  | .insert2 => 1
  | _ => 0

/-- What holds in every state of a run, whatever the store answers: `main` has
launched `i` goroutines, no more than `reqNum`; the channel holds one value for
each goroutine that holds a slot, and no more than its capacity; the wait group
counts the goroutines that have not called `wg.Done()`; goroutine `j` was given
`hosts[j % len(hosts)]`; and `main` goes past its loop only after `reqNum`
launches. -/
structure Inv (cfg : Config) {σ : Type} (s : Sys σ) : Prop where
  len : s.gs.length = s.i
  le : s.i ≤ cfg.reqNum
  sema : s.sema = s.holding
  cap : s.sema ≤ cfg.parallelNum
  wg : s.wg = s.pending
  host : ∀ j g, s.gs[j]? = some g →
    g.hostIndex = j % cfg.hosts.length ∧ cfg.hosts[j % cfg.hosts.length]? = some g.host
  left : s.main = .wait ∨ s.main = .report ∨ s.main = .exited → s.i = cfg.reqNum

/-- The flag of the row a goroutine at this point has in the table under its
code, `none` when it has no row there. -/
def PC.expect : PC → Option Bool
  | .acquire | .insert1 | .insert2 => none
  | .updateExec => some true
  | .updateCheck | .delete => some false
  | .release | .wgDone | .finished => some true
  | .unwindRelease _ | .unwindDone _ | .dying _ => none

/-- The number of steps a goroutine at this point still has to take. -/
def PC.rank : PC → Nat
  | .acquire => 8
  | .insert1 => 7
  | .updateExec => 6
  | .updateCheck => 5
  | .delete => 4
  | .insert2 => 3
  | .release => 2
  | .wgDone => 1
  | .finished => 0
  | .unwindRelease _ => 3
  | .unwindDone _ => 2
  | .dying _ => 1

/-- The number of steps `main` still has to take once its loop has launched
every goroutine. -/
def MainPC.rank : MainPC → Nat
  | .loop => 3
  | .wait => 2
  | .report => 1
  | .dying _ => 1
  | .exited => 0

/-- The number of steps left in a run in which no call fails: those of `main`,
of the goroutines not yet launched (one launch and eight steps each) and of the
launched ones. -/
def Sys.stepsLeft {σ : Type} (cfg : Config) (s : Sys σ) : Nat :=
  s.main.rank + 9 * (cfg.reqNum - s.i) + (s.gs.map (fun g => g.pc.rank)).sum

/-- How the rows of the table and the goroutines fit together when goroutine `j`
works on the code `code j`: no two rows share a code; every row belongs to a
goroutine that expects it, with the flag it expects; and every goroutine that
expects a row has one. -/
structure TabInv (code : Nat → String) (rows : List Test) (gs : List Goroutine) : Prop where
  nodup : (rows.map (fun r => r.Code)).Nodup
  owned : ∀ r ∈ rows, ∃ j g, gs[j]? = some g ∧ r.Code = code j ∧ g.pc.expect = some r.IsTest
  stored : ∀ j g, gs[j]? = some g → g.pc.expect.isSome = true → ∃ r ∈ rows, r.Code = code j

/-- What holds in every state of a run on the table store with the single host
`h` and pairwise distinct generated codes `code j`; in particular no party is
panicking. -/
structure TInv (cfg : Config) (h : String) (code : Nat → String) (s : Sys (String → Table)) :
    Prop where
  base : Inv cfg s
  alive : s.aborted = none
  calm : (∀ g ∈ s.gs, g.pc.unwinding = false) ∧ ∀ x, s.main ≠ .dying x
  unit : ∀ j g, s.gs[j]? = some g →
    g.host = h ∧ (g.pc ≠ .acquire → g.pc ≠ .insert1 → g.code = code j)
  table : TabInv code (s.world.db h).rows s.gs
  joined : s.main = .report ∨ s.main = .exited → s.pending = 0
  printed : s.main = .exited → s.count = some (cfg.reqNum : Int)

/-- The setting of the end-to-end scenario: a single host `h`, and goroutine `j`
generates the code `code j`, different goroutines different codes. -/
structure Setting (cfg : Config) (h : String) (code : Nat → String) (env : Nat → UnitEnv) :
    Prop where
  hosts : cfg.hosts = [h]
  gen : ∀ j, j < cfg.reqNum → generateUID (env j).rnd1.unix (env j).rnd1.read = .ok (code j)
  inj : ∀ a b, a < cfg.reqNum → b < cfg.reqNum → code a = code b → a = b

/-- A clock and random source for the scenario of 50 requests: goroutine `j`
reads the ten bytes `j, j, ..., j`. -/
def demoEnv (j : Nat) : UnitEnv :=
  { rnd1 := { unix := 1700000000,
              read := .ok (List.replicate 10 (⟨j % 256, Nat.mod_lt _ (by decide)⟩ : Byte)) }
    now1 := 0
    rnd2 := { unix := 1700000000, read := .ok [] }
    now2 := 0 }

/-- The code goroutine `j` generates from `demoEnv j`. -/
def demoCode (j : Nat) : String :=
  EncodeToString (bytesOf (sprintfDX 1700000000
    (List.replicate 10 (⟨j % 256, Nat.mod_lt _ (by decide)⟩ : Byte))))

/-! ## Theorems: the unique code generator -/

theorem hexDigit_inj : ∀ a b : Fin 16, hexDigit a.val = hexDigit b.val → a = b := by decide

theorem shr4_eq (n : Nat) : n >>> 4 = n / 16 := by
  simp [Nat.shiftRight_eq_div_pow]

theorem and15_eq (n : Nat) : n &&& 0x0f = n % 16 := by
  have := Nat.and_pow_two_sub_one_eq_mod n 4
  simpa using this

theorem byte_split (v w : Byte) (h1 : v.val >>> 4 = w.val >>> 4)
    (h2 : v.val &&& 0x0f = w.val &&& 0x0f) : v = w := by
  rw [shr4_eq, shr4_eq] at h1
  rw [and15_eq, and15_eq] at h2
  apply Fin.ext
  omega

theorem byte_hi_lt (v : Byte) : v.val >>> 4 < 16 := by
  rw [shr4_eq]; have := v.isLt; omega

theorem byte_lo_lt (v : Byte) : v.val &&& 0x0f < 16 := by
  rw [and15_eq]; omega

theorem encodeChars_length (l : List Byte) : (encodeChars l).length = 2 * l.length := by
  induction l with
  | nil => rfl
  | cons v rest ih => simp [encodeChars, ih]; omega

theorem encodeChars_inj : ∀ l₁ l₂ : List Byte, encodeChars l₁ = encodeChars l₂ → l₁ = l₂ := by
  intro l₁
  induction l₁ with
  | nil =>
    intro l₂ h
    cases l₂ with
    | nil => rfl
    | cons w r => simp [encodeChars] at h
  | cons v rest ih =>
    intro l₂ h
    cases l₂ with
    | nil => simp [encodeChars] at h
    | cons w r =>
      simp only [encodeChars, List.cons.injEq] at h
      obtain ⟨h1, h2, h3⟩ := h
      have e1 := hexDigit_inj ⟨_, byte_hi_lt v⟩ ⟨_, byte_hi_lt w⟩ h1
      have e2 := hexDigit_inj ⟨_, byte_lo_lt v⟩ ⟨_, byte_lo_lt w⟩ h2
      rw [byte_split v w (by simpa using e1) (by simpa using e2), ih r h3]


theorem digitVal_digitChar : ∀ d : Fin 10, digitVal (digitChar d.val) = d.val := by decide

theorem digitChar_ne_minus : ∀ d : Fin 10, digitChar d.val ≠ '-' := by decide

theorem digitChar_ascii : ∀ d : Fin 10, (digitChar d.val).toNat < 128 := by decide

theorem hexDigit_ascii : ∀ d : Fin 16, (hexDigit d.val).toNat < 128 := by decide

theorem fmtUint_acc : ∀ (fuel u : Nat) (acc : List Char),
    fmtUint fuel u acc = fmtUint fuel u [] ++ acc := by
  intro fuel
  induction fuel with
  | zero => intro u acc; simp [fmtUint]
  | succ f ih =>
    intro u acc
    simp only [fmtUint]
    split
    · rw [ih (u / 10) (digitChar (u % 10) :: acc), ih (u / 10) [digitChar (u % 10)]]
      simp
    · simp

theorem decVal_snoc (l : List Char) (c : Char) : decVal (l ++ [c]) = 10 * decVal l + digitVal c := by
  simp [decVal, List.foldl_append]

theorem decVal_fmtUint : ∀ (fuel u : Nat), u < fuel → decVal (fmtUint fuel u []) = u := by
  intro fuel
  induction fuel with
  | zero => intro u h; omega
  | succ f ih =>
    intro u h
    simp only [fmtUint]
    split
    · rw [fmtUint_acc, decVal_snoc, ih (u / 10) (by omega)]
      have := digitVal_digitChar ⟨u % 10, Nat.mod_lt _ (by norm_num)⟩
      simp only at this
      rw [this]; omega
    · have := digitVal_digitChar ⟨u, by omega⟩
      simp only at this
      simp [decVal, this]

theorem fmtUint_head : ∀ (fuel u : Nat), 0 < fuel →
    ∃ d : Fin 10, ∃ rest, fmtUint fuel u [] = digitChar d.val :: rest := by
  intro fuel
  induction fuel with
  | zero => intro u h; omega
  | succ f ih =>
    intro u _
    simp only [fmtUint]
    split
    · rename_i h10
      rw [fmtUint_acc]
      cases f with
      | zero => exact ⟨⟨u % 10, Nat.mod_lt _ (by norm_num)⟩, [], by simp [fmtUint]⟩
      | succ f' =>
        obtain ⟨d, rest, hd⟩ := ih (u / 10) (by omega)
        exact ⟨d, rest ++ [digitChar (u % 10)], by rw [hd]; simp⟩
    · exact ⟨⟨u, by omega⟩, [], rfl⟩

theorem fmtUint_ascii : ∀ (fuel u : Nat) (c : Char), c ∈ fmtUint fuel u [] → c.toNat < 128 := by
  intro fuel
  induction fuel with
  | zero => intro u c h; simp [fmtUint] at h
  | succ f ih =>
    intro u c h
    simp only [fmtUint] at h
    split at h
    · rw [fmtUint_acc] at h
      rcases List.mem_append.1 h with h | h
      · exact ih _ _ h
      · simp only [List.mem_singleton] at h
        rw [h]; exact digitChar_ascii ⟨u % 10, Nat.mod_lt _ (by norm_num)⟩
    · simp only [List.mem_singleton] at h
      rw [h]; exact digitChar_ascii ⟨u, by omega⟩

theorem parseD_fmtD (n : Int) : parseD (fmtD n) = n := by
  unfold fmtD
  by_cases hn : n < 0
  · simp only [hn, if_true, List.singleton_append, parseD]
    rw [decVal_fmtUint _ _ (by omega)]
    omega
  · simp only [hn, if_false, List.nil_append]
    obtain ⟨d, rest, hd⟩ := fmtUint_head (n.natAbs + 1) n.natAbs (by omega)
    have hv := decVal_fmtUint (n.natAbs + 1) n.natAbs (by omega)
    rw [hd] at hv ⊢
    have hne := digitChar_ne_minus d
    unfold parseD
    split
    · rename_i heq
      simp only [List.cons.injEq] at heq
      exact absurd heq.1 hne
    · rw [hv]; omega

theorem fmtD_inj {a b : Int} (h : fmtD a = fmtD b) : a = b := by
  rw [← parseD_fmtD a, ← parseD_fmtD b, h]

theorem fmtD_ne_nil (n : Int) : fmtD n ≠ [] := by
  unfold fmtD
  obtain ⟨d, rest, hd⟩ := fmtUint_head (n.natAbs + 1) n.natAbs (by omega)
  rw [hd]; simp

theorem fmtD_ascii (n : Int) : ∀ c ∈ fmtD n, c.toNat < 128 := by
  intro c hc
  unfold fmtD at hc
  rcases List.mem_append.1 hc with h | h
  · split at h
    · simp only [List.mem_singleton] at h; rw [h]; decide
    · simp at h
  · exact fmtUint_ascii _ _ _ h

theorem encodeChars_ascii (l : List Byte) : ∀ c ∈ encodeChars l, c.toNat < 128 := by
  induction l with
  | nil => intro c h; simp [encodeChars] at h
  | cons v rest ih =>
    intro c h
    simp only [encodeChars, List.mem_cons] at h
    rcases h with h | h | h
    · rw [h]; exact hexDigit_ascii ⟨_, byte_hi_lt v⟩
    · rw [h]; exact hexDigit_ascii ⟨_, byte_lo_lt v⟩
    · exact ih c h

theorem char_eq_of_toNat {a b : Char} (h : a.toNat = b.toNat) : a = b := by
  have := congrArg Char.ofNat h
  simpa using this

theorem bytesOf_mk (l : List Char) :
    bytesOf (String.mk l) = l.map (fun c => (⟨c.toNat % 256, Nat.mod_lt _ (by decide)⟩ : Byte)) := rfl

theorem bytesOf_inj : ∀ (l₁ l₂ : List Char), (∀ c ∈ l₁, c.toNat < 128) → (∀ c ∈ l₂, c.toNat < 128) →
    bytesOf (String.mk l₁) = bytesOf (String.mk l₂) → l₁ = l₂ := by
  intro l₁
  induction l₁ with
  | nil =>
    intro l₂ _ _ h
    cases l₂ with
    | nil => rfl
    | cons c r => rw [bytesOf_mk, bytesOf_mk] at h; simp at h
  | cons a r ih =>
    intro l₂ h1 h2 h
    cases l₂ with
    | nil => rw [bytesOf_mk, bytesOf_mk] at h; simp at h
    | cons b r₂ =>
      simp only [bytesOf_mk, List.map_cons, List.cons.injEq, Fin.mk.injEq] at h
      have ha := h1 a (List.mem_cons_self _ _)
      have hb := h2 b (List.mem_cons_self _ _)
      have hab : a = b := char_eq_of_toNat (by omega)
      rw [hab, ih r₂ (fun c hc => h1 c (List.mem_cons_of_mem _ hc))
        (fun c hc => h2 c (List.mem_cons_of_mem _ hc)) (by simpa [bytesOf_mk] using h.2)]

theorem sprintfDX_ascii (t : Int) (buf : List Byte) :
    ∀ c ∈ fmtD t ++ encodeChars buf, c.toNat < 128 := by
  intro c hc
  rcases List.mem_append.1 hc with h | h
  · exact fmtD_ascii t c h
  · exact encodeChars_ascii buf c h

theorem generateUID_inj (t₁ t₂ : Int) (b₁ b₂ : List Byte)
    (h₁ : b₁.length = 10) (h₂ : b₂.length = 10)
    (h : generateUID t₁ (.ok b₁) = generateUID t₂ (.ok b₂)) : t₁ = t₂ ∧ b₁ = b₂ := by
  have tk₁ : b₁.take 10 = b₁ := List.take_of_length_le (by omega)
  have tk₂ : b₂.take 10 = b₂ := List.take_of_length_le (by omega)
  simp only [generateUID, tk₁, tk₂, Except.ok.injEq, EncodeToString] at h
  have h' := encodeChars_inj _ _ (congrArg String.data h)
  have h'' := bytesOf_inj _ _ (sprintfDX_ascii t₁ b₁) (sprintfDX_ascii t₂ b₂) h'
  have hl : (encodeChars b₁).length = (encodeChars b₂).length := by
    rw [encodeChars_length, encodeChars_length, h₁, h₂]
  obtain ⟨e1, e2⟩ := List.append_inj' h'' hl
  exact ⟨fmtD_inj e1, encodeChars_inj _ _ e2⟩

theorem generateUID_ne_empty (t : Int) (rd : Except Err (List Byte)) :
    generateUID t rd ≠ .ok "" := by
  intro h
  cases rd with
  | error e => simp [generateUID] at h
  | ok b =>
    simp only [generateUID, Except.ok.injEq, EncodeToString] at h
    have h0 : encodeChars (bytesOf (sprintfDX t (b.take 10))) = [] := by
      have := congrArg String.data h
      simpa using this
    have h1 := encodeChars_inj _ [] h0
    have hne := fmtD_ne_nil t
    cases hf : fmtD t with
    | nil => exact hne hf
    | cons c r => simp [sprintfDX, bytesOf_mk, hf] at h1

/-- C9. `generateUID` is injective in the timestamp and the ten random bytes:
two generated codes are equal only if the timestamps are equal and the buffers
are equal. A code is generated for every such input and is never the empty
string. -/
theorem generateUID_injective (t₁ t₂ : Int) (b₁ b₂ : List Byte)
    (h₁ : b₁.length = 10) (h₂ : b₂.length = 10) :
    (generateUID t₁ (.ok b₁) = generateUID t₂ (.ok b₂) → t₁ = t₂ ∧ b₁ = b₂) ∧
    generateUID t₁ (.ok b₁) ≠ .ok "" ∧ ∃ code, generateUID t₁ (.ok b₁) = .ok code :=
  ⟨generateUID_inj t₁ t₂ b₁ b₂ h₁ h₂, generateUID_ne_empty t₁ (.ok b₁), _, rfl⟩

/-- The statement of C9 at two different timestamps and buffers. -/
theorem generateUID_injective_witness :
    (generateUID 7 (.ok (List.replicate 10 1)) = generateUID 8 (.ok (List.replicate 10 2)) →
      (7 : Int) = 8 ∧ List.replicate 10 (1 : Byte) = List.replicate 10 2) ∧
    generateUID 7 (.ok (List.replicate 10 1)) ≠ .ok "" ∧
    ∃ code, generateUID 7 (.ok (List.replicate 10 1)) = .ok code :=
  generateUID_injective 7 8 (List.replicate 10 1) (List.replicate 10 2) (by decide) (by decide)

theorem fmtUint_length : ∀ (k fuel u : Nat), u < fuel → 10 ^ k ≤ u → u < 10 ^ (k + 1) →
    (fmtUint fuel u []).length = k + 1 := by
  intro k
  induction k with
  | zero =>
    intro fuel u hf _ hu
    cases fuel with
    | zero => omega
    | succ f =>
      simp only [fmtUint]
      rw [if_neg (by omega)]
      rfl
  | succ k ih =>
    intro fuel u hf hl hu
    cases fuel with
    | zero => omega
    | succ f =>
      have h10 : 10 ≤ u := by
        have : 1 ≤ 10 ^ k := Nat.one_le_pow _ _ (by norm_num)
        rw [pow_succ] at hl
        omega
      simp only [fmtUint]
      rw [if_pos h10, fmtUint_acc, List.length_append, List.length_singleton]
      rw [ih f (u / 10) (by omega)
        (by rw [pow_succ] at hl; omega)
        (by rw [pow_succ] at hu; omega)]

theorem fmtD_length_ten (t : Int) (h1 : 1000000000 ≤ t) (h2 : t < 10000000000) :
    (fmtD t).length = 10 := by
  unfold fmtD
  rw [if_neg (by omega), List.nil_append]
  exact fmtUint_length 9 _ _ (by omega) (by norm_num; omega) (by norm_num; omega)

/-- C8 (amended). The code is the hex encoding of the text that `%d%x` prints:
the decimal digits of the timestamp followed by the hex digits of the ten bytes,
so the random bytes are hex-encoded twice; the code has
`2 * (digits of the timestamp) + 40` characters, 60 for a 10-digit timestamp. -/
theorem generateUID_eq (t : Int) (b : List Byte) (h : b.length = 10) :
    generateUID t (.ok b)
      = .ok (EncodeToString (bytesOf (String.mk (fmtD t ++ (EncodeToString b).toList)))) ∧
    (EncodeToString (bytesOf (String.mk (fmtD t ++ (EncodeToString b).toList)))).length
      = 2 * (fmtD t).length + 40 ∧
    (1000000000 ≤ t → t < 10000000000 →
      (EncodeToString (bytesOf (String.mk (fmtD t ++ (EncodeToString b).toList)))).length
        = 60) := by
  have tk : b.take 10 = b := List.take_of_length_le (by omega)
  have hlen : (EncodeToString (bytesOf (String.mk (fmtD t ++ (EncodeToString b).toList)))).length
      = 2 * (fmtD t).length + 40 := by
    simp [EncodeToString, String.length, encodeChars_length, bytesOf_mk, h]
    omega
  refine ⟨by simp [generateUID, tk, sprintfDX, EncodeToString], hlen, ?_⟩
  intro h1 h2
  rw [hlen, fmtD_length_ten t h1 h2]

/-- The statement of C8 (amended) at timestamp 1700000000 and the bytes 0, ..., 9. -/
theorem generateUID_eq_witness :
    ([0, 1, 2, 3, 4, 5, 6, 7, 8, 9] : List Byte).length = 10 ∧
    generateUID 1700000000 (.ok [0, 1, 2, 3, 4, 5, 6, 7, 8, 9])
      = .ok (EncodeToString (bytesOf (String.mk
          (fmtD 1700000000 ++ (EncodeToString [0, 1, 2, 3, 4, 5, 6, 7, 8, 9]).toList)))) ∧
    (EncodeToString (bytesOf (String.mk
        (fmtD 1700000000 ++ (EncodeToString [0, 1, 2, 3, 4, 5, 6, 7, 8, 9]).toList)))).length
      = 60 :=
  ⟨by decide, (generateUID_eq 1700000000 [0, 1, 2, 3, 4, 5, 6, 7, 8, 9] (by decide)).1,
    (generateUID_eq 1700000000 [0, 1, 2, 3, 4, 5, 6, 7, 8, 9] (by decide)).2.2 (by decide)
      (by decide)⟩

/-- C8 (counterexample). At timestamp 1000000000 and ten zero bytes the code is
not the once-encoded concatenation, and it has 60 characters, not 40. -/
theorem generateUID_not_specUID :
    generateUID 1000000000 (.ok (List.replicate 10 0))
        ≠ .ok (specUID 1000000000 (List.replicate 10 0)) ∧
      (fmtD 1000000000).length = 10 ∧
      (specUID 1000000000 (List.replicate 10 0)).length = 40 ∧
      generateUID 1000000000 (.ok (List.replicate 10 0))
        = .ok "313030303030303030303030303030303030303030303030303030303030" ∧
      ("313030303030303030303030303030303030303030303030303030303030" : String).length = 60 := by
  decide


/-! ## Theorems: row operations on the table store -/

@[simp] theorem run_bind {σ α β : Type} (m : Run σ α) (f : α → Run σ β) :
    (m >>= f) = Run.bind m f := rfl

@[simp] theorem run_pure {σ α : Type} (a : α) : (pure a : Run σ α) = Run.pure a := rfl

theorem insert_table (debug : Bool) (rnd : Entropy) (now : Time) (host code : String)
    (db : String → Table) (log : List Event) (hne : code ≠ "") :
    ∃ log1, insert tableConn debug rnd now host code ⟨db, log⟩ =
      .ok code ⟨Function.update db host ((db host).exec (.insertRow code "test" true now)).2,
        log1⟩ := by
  cases debug <;>
    simp [insert, hne, Run.bind, Run.pure, dbExec, tableConn, fatalIfErr, World.note, isErr,
      rowsAffected, lastInsertId, Table.exec]

theorem insert_table_fresh (debug : Bool) (rnd : Entropy) (now : Time) (host code : String)
    (db : String → Table) (log : List Event)
    (hgen : generateUID rnd.unix rnd.read = .ok code) :
    ∃ log1, insert tableConn debug rnd now host "" ⟨db, log⟩ =
      .ok code ⟨Function.update db host ((db host).exec (.insertRow code "test" true now)).2,
        log1⟩ := by
  cases debug <;>
    simp [insert, Run.bind, Run.pure, dbExec, tableConn, fatalIfErr, World.note, isErr,
      rowsAffected, lastInsertId, Table.exec, callGenerateUID, hgen]

theorem updateExec_table (debug : Bool) (host code : String) (db : String → Table)
    (log : List Event) :
    ∃ log1, updateExec tableConn debug host code ⟨db, log⟩ =
      .ok () ⟨Function.update db host ((db host).exec (.updateFlag code)).2, log1⟩ := by
  cases debug <;>
    simp [updateExec, Run.bind, Run.pure, dbExec, tableConn, fatalIfErr, World.note, isErr,
      rowsAffected, lastInsertId, Table.exec]

theorem deleteOne_table (host code : String) (db : String → Table) (log : List Event) :
    ∃ log1, deleteOne tableConn host code ⟨db, log⟩ =
      .ok () ⟨Function.update db host ((db host).exec (.deleteCode code)).2, log1⟩ := by
  simp [deleteOne, Run.bind, Run.pure, dbExec, tableConn, fatalIfErr, World.note, isErr,
    Table.exec]

theorem selectOne_table (host code : String) (db : String → Table) (log : List Event) :
    selectOne tableConn host code ⟨db, log⟩ =
      match matching db host code with
      | [] => .abort (.panic .rowsClosed) ⟨db, log ++ [⟨.Query, false⟩, ⟨.Scan, true⟩]⟩
      | r :: _ => .ok r ⟨db, log ++ [⟨.Query, false⟩, ⟨.Scan, false⟩]⟩ := by
  unfold matching
  cases h : (db host).rows.filter (fun r => r.Code = code) with
  | nil =>
    simp [selectOne, Run.bind, Run.pure, dbQueryCode, tableConn, fatalIfErr, rowsScan, Rows.Next,
      Rows.Scan, World.note, isErr, h]
  | cons r rest =>
    simp [selectOne, Run.bind, Run.pure, dbQueryCode, tableConn, fatalIfErr, rowsScan, Rows.Next,
      Rows.Scan, World.note, isErr, h]

theorem selectCount_table (host : String) (db : String → Table) (log : List Event) :
    selectCount tableConn host ⟨db, log⟩ =
      .ok ((db host).rows.length : Int) ⟨db, log ++ [⟨.Query, false⟩, ⟨.Scan, false⟩]⟩ := by
  simp [selectCount, Run.bind, Run.pure, dbQueryCount, tableConn, fatalIfErr, rowsScan, Rows.Next,
    Rows.Scan, World.note, isErr]

theorem updateCheck_table (host code : String) (db : String → Table) (log : List Event)
    (r : Test) (rest : List Test) (hm : matching db host code = r :: rest)
    (hr : r.IsTest = false) :
    ∃ log1, updateCheck tableConn host code ⟨db, log⟩ = .ok () ⟨db, log1⟩ := by
  simp [updateCheck, Run.bind, Run.pure, selectOne_table, hm, hr]


/-- C5 (counterexample). On an empty table `selectOne` does not return the zero
row: `rows.Next()` finds no row and closes the cursor, `rows.Scan` then reports
`sql: Rows are closed`, and `fatalIfErr` panics. -/
theorem selectOne_missing_aborts :
    (selectOne tableConn "h" "x" ⟨fun _ => Table.empty, []⟩).result
        = .error (.panic .rowsClosed) ∧
      (selectOne tableConn "h" "x" ⟨fun _ => Table.empty, []⟩).result ≠ .ok Test.zero := by
  decide

/-- C5 (amended). With no row for the code `selectOne` aborts the process with
the error `rows.Scan` reports on the closed cursor; with a matching row it
returns the first matching row. It never changes the table. -/
theorem selectOne_result (host code : String) (db : String → Table) (log : List Event) :
    (selectOne tableConn host code ⟨db, log⟩).result =
        (match matching db host code with
         | [] => .error (.panic .rowsClosed)
         | r :: _ => .ok r) ∧
      (selectOne tableConn host code ⟨db, log⟩).world.db = db := by
  rw [selectOne_table]
  cases matching db host code <;> simp [Outcome.result, Outcome.world]

theorem filter_code_eq_nil {rows : List Test} {code : String} :
    rows.filter (fun r => r.Code = code) = [] ↔ ∀ r ∈ rows, r.Code ≠ code := by
  simp [List.filter_eq_nil_iff]

theorem map_clear_of_fresh {rows : List Test} {code : String}
    (h : ∀ r ∈ rows, r.Code ≠ code) :
    rows.map (fun r => if r.Code = code then { r with IsTest := false } else r) = rows := by
  induction rows with
  | nil => rfl
  | cons a l ih =>
    simp only [List.map_cons]
    rw [if_neg (h a (List.mem_cons_self _ _)), ih (fun r hr => h r (List.mem_cons_of_mem _ hr))]

/-- C3. On a table without a row for the generated code, one work unit runs to
its end, the row count is one higher than before, exactly one row has the code,
and `selectOne` returns a row with that code and `is_test = true`. -/
theorem load_postcondition (debug : Bool) (e : UnitEnv) (host code : String)
    (db : String → Table) (log : List Event)
    (hgen : generateUID e.rnd1.unix e.rnd1.read = .ok code)
    (hfresh : matching db host code = []) :
    ∃ w, loadBody tableConn debug e host ⟨db, log⟩ = .ok () w ∧
      (selectCount tableConn host ⟨db, log⟩).result = .ok ((db host).rows.length : Int) ∧
      (selectCount tableConn host w).result = .ok (((db host).rows.length : Int) + 1) ∧
      (matching w.db host code).length = 1 ∧
      ∃ t, (selectOne tableConn host code w).result = .ok t ∧ t.IsTest = true ∧ t.Code = code := by
  have hne : code ≠ "" := by
    intro h; rw [h] at hgen; exact generateUID_ne_empty _ _ hgen
  have hf : ∀ r ∈ (db host).rows, r.Code ≠ code := filter_code_eq_nil.1 hfresh
  obtain ⟨l1, h1⟩ := insert_table_fresh debug e.rnd1 e.now1 host code db log hgen
  obtain ⟨db1, hdb1⟩ : ∃ d, d = Function.update db host
      ((db host).exec (.insertRow code "test" true e.now1)).2 := ⟨_, rfl⟩
  rw [← hdb1] at h1
  have t1 : db1 host = ⟨(db host).rows ++ [⟨(db host).nextID, code, "test", true, e.now1⟩],
      (db host).nextID + 1⟩ := by
    rw [hdb1]; simp [Table.exec]
  obtain ⟨l2, h2⟩ := updateExec_table debug host code db1 l1
  obtain ⟨db2, hdb2⟩ : ∃ d, d = Function.update db1 host
      ((db1 host).exec (.updateFlag code)).2 := ⟨_, rfl⟩
  rw [← hdb2] at h2
  have t2 : db2 host = ⟨(db host).rows ++ [⟨(db host).nextID, code, "test", false, e.now1⟩],
      (db host).nextID + 1⟩ := by
    rw [hdb2]; simp [Table.exec, t1, map_clear_of_fresh hf]
  have hm2 : matching db2 host code = [⟨(db host).nextID, code, "test", false, e.now1⟩] := by
    simp [matching, t2, List.filter_append, filter_code_eq_nil.2 hf]
  obtain ⟨l3, h3⟩ := updateCheck_table host code db2 l2 _ _ hm2 rfl
  obtain ⟨l4, h4⟩ := deleteOne_table host code db2 l3
  obtain ⟨db4, hdb4⟩ : ∃ d, d = Function.update db2 host
      ((db2 host).exec (.deleteCode code)).2 := ⟨_, rfl⟩
  rw [← hdb4] at h4
  have t4 : db4 host = ⟨(db host).rows, (db host).nextID + 1⟩ := by
    rw [hdb4]; simp [Table.exec, t2, List.filter_append]; exact hf
  obtain ⟨l5, h5⟩ := insert_table debug e.rnd2 e.now2 host code db4 l4 hne
  obtain ⟨db5, hdb5⟩ : ∃ d, d = Function.update db4 host
      ((db4 host).exec (.insertRow code "test" true e.now2)).2 := ⟨_, rfl⟩
  rw [← hdb5] at h5
  have t5 : db5 host = ⟨(db host).rows ++ [⟨(db host).nextID + 1, code, "test", true, e.now2⟩],
      (db host).nextID + 1 + 1⟩ := by
    rw [hdb5]; simp [Table.exec, t4]
  refine ⟨⟨db5, l5⟩, ?_, ?_, ?_, ?_, ?_⟩
  · simp only [loadBody, update, run_bind, Run.bind, h1, h2, h3, h4, h5, run_pure, Run.pure]
  · rw [selectCount_table]; rfl
  · rw [selectCount_table]
    simp [Outcome.result, t5]
  · simp [matching, t5, List.filter_append, filter_code_eq_nil.2 hf]
  · rw [selectOne_table]
    simp [matching, t5, List.filter_append, filter_code_eq_nil.2 hf, Outcome.result]

/-- The statement of C3 for one work unit on an empty table of host `h`. -/
theorem load_postcondition_witness :
    ∃ w, loadBody tableConn false
        ⟨⟨5, .ok (List.replicate 10 0)⟩, 100, ⟨6, .ok (List.replicate 10 1)⟩, 200⟩ "h"
        ⟨fun _ => Table.empty, []⟩ = .ok () w ∧
      (selectCount tableConn "h" ⟨fun _ => Table.empty, []⟩).result
        = .ok ((((fun _ => Table.empty) "h" : Table).rows.length : Int)) ∧
      (selectCount tableConn "h" w).result
        = .ok ((((fun _ => Table.empty) "h" : Table).rows.length : Int) + 1) ∧
      (matching w.db "h" "353030303030303030303030303030303030303030").length = 1 ∧
      ∃ t, (selectOne tableConn "h" "353030303030303030303030303030303030303030" w).result
          = .ok t ∧ t.IsTest = true ∧ t.Code = "353030303030303030303030303030303030303030" :=
  load_postcondition false
    ⟨⟨5, .ok (List.replicate 10 0)⟩, 100, ⟨6, .ok (List.replicate 10 1)⟩, 200⟩ "h"
    "353030303030303030303030303030303030303030" (fun _ => Table.empty) [] (by decide) (by decide)


/-! ## Theorems: row operations on any store -/

theorem guarded_insert {σ : Type} (c : Conn σ) (debug : Bool) (rnd : Entropy) (now : Time)
    (host code : String) (db : σ) :
    guarded (fun _ => true) (insert c debug rnd now host code ⟨db, []⟩) = true := by
  by_cases hc : code = ""
  · cases hg : generateUID rnd.unix rnd.read with
    | error x =>
      simp [insert, Run.bind, Run.pure, callGenerateUID, hc, hg, guarded, Outcome.world,
        Outcome.aborted]
    | ok uid =>
      rcases hex : c.exec host (Stmt.insertRow uid "test" true now) db with ⟨r, s⟩
      cases r with
      | error e =>
        simp [insert, Run.bind, Run.pure, callGenerateUID, dbExec, fatalIfErr, World.note, hc, hg,
          hex, guarded, Outcome.world, Outcome.aborted, isErr]
      | ok res =>
        cases debug <;> cases hra : res.rowsAffected <;> cases hli : res.lastInsertId <;>
          simp [insert, Run.bind, Run.pure, callGenerateUID, dbExec, fatalIfErr, World.note,
            rowsAffected, lastInsertId, hc, hg, hex, hra, hli, guarded, Outcome.world,
            Outcome.aborted, isErr]
  · rcases hex : c.exec host (Stmt.insertRow code "test" true now) db with ⟨r, s⟩
    cases r with
    | error e =>
      simp [insert, Run.bind, Run.pure, dbExec, fatalIfErr, World.note, hc, hex, guarded,
        Outcome.world, Outcome.aborted, isErr]
    | ok res =>
      cases debug <;> cases hra : res.rowsAffected <;> cases hli : res.lastInsertId <;>
        simp [insert, Run.bind, Run.pure, dbExec, fatalIfErr, World.note, rowsAffected,
          lastInsertId, hc, hex, hra, hli, guarded, Outcome.world, Outcome.aborted, isErr]

theorem guarded_deleteOne {σ : Type} (c : Conn σ) (host code : String) (db : σ) :
    guarded (fun _ => true) (deleteOne c host code ⟨db, []⟩) = true := by
  rcases hex : c.exec host (Stmt.deleteCode code) db with ⟨r, s⟩
  cases r <;>
    simp [deleteOne, Run.bind, Run.pure, dbExec, fatalIfErr, World.note, hex, guarded,
      Outcome.world, Outcome.aborted, isErr]

theorem guarded_selectOne {σ : Type} (c : Conn σ) (host code : String) (db : σ) :
    guarded (fun _ => true) (selectOne c host code ⟨db, []⟩) = true := by
  rcases hq : c.queryCode host code db with ⟨r, s⟩
  cases r with
  | error e =>
    simp [selectOne, Run.bind, Run.pure, dbQueryCode, fatalIfErr, World.note, hq, guarded,
      Outcome.world, Outcome.aborted, isErr]
  | ok rows =>
    cases hs : rows.Next.2.Scan <;>
      simp [selectOne, Run.bind, Run.pure, dbQueryCode, rowsScan, fatalIfErr, World.note, hq, hs,
        guarded, Outcome.world, Outcome.aborted, isErr]

theorem guarded_selectCount {σ : Type} (c : Conn σ) (host : String) (db : σ) :
    guarded (fun _ => true) (selectCount c host ⟨db, []⟩) = true := by
  rcases hq : c.queryCount host db with ⟨r, s⟩
  cases r with
  | error e =>
    simp [selectCount, Run.bind, Run.pure, dbQueryCount, fatalIfErr, World.note, hq, guarded,
      Outcome.world, Outcome.aborted, isErr]
  | ok rows =>
    cases hs : rows.Next.2.Scan <;>
      simp [selectCount, Run.bind, Run.pure, dbQueryCount, rowsScan, fatalIfErr, World.note, hq,
        hs, guarded, Outcome.world, Outcome.aborted, isErr]

theorem guarded_update {σ : Type} (c : Conn σ) (debug : Bool) (host code : String) (db : σ) :
    guarded (fun call => call != Call.LastInsertId) (update c debug host code ⟨db, []⟩) = true ∧
      guarded (fun _ => true) (update c false host code ⟨db, []⟩) = true := by
  rcases hex : c.exec host (Stmt.updateFlag code) db with ⟨r, s⟩
  cases r with
  | error e =>
    cases debug <;>
      simp [update, updateExec, Run.bind, Run.pure, dbExec, fatalIfErr, World.note, hex, guarded,
        Outcome.world, Outcome.aborted, isErr]
  | ok res =>
    rcases hq : c.queryCode host code s with ⟨q, s2⟩
    cases q with
    | error e =>
      cases debug <;> cases hra : res.rowsAffected <;> cases hli : res.lastInsertId <;>
        simp [update, updateExec, updateCheck, selectOne, Run.bind, Run.pure, dbExec, dbQueryCode,
          fatalIfErr, World.note, rowsAffected, lastInsertId, hex, hq, hra, hli, guarded,
          Outcome.world, Outcome.aborted, isErr]
    | ok rows =>
      cases hs : rows.Next.2.Scan with
      | error e =>
        cases debug <;> cases hra : res.rowsAffected <;> cases hli : res.lastInsertId <;>
          simp [update, updateExec, updateCheck, selectOne, Run.bind, Run.pure, dbExec,
            dbQueryCode, rowsScan, fatalIfErr, World.note, rowsAffected, lastInsertId, hex, hq,
            hs, hra, hli, guarded, Outcome.world, Outcome.aborted, isErr]
      | ok t =>
        cases ht : t.IsTest <;> cases debug <;> cases hra : res.rowsAffected <;>
          cases hli : res.lastInsertId <;>
          simp [update, updateExec, updateCheck, selectOne, Run.bind, Run.pure, dbExec,
            dbQueryCode, rowsScan, fatalIfErr, logFatal, World.note, rowsAffected, lastInsertId,
            hex, hq, hs, ht, hra, hli, guarded, Outcome.world, Outcome.aborted, isErr]

/-- C7 (amended). Whatever the store answers, `insert`, `deleteOne`, `selectOne`
and `selectCount` go past no failed library call, in debug mode or not: a failed
call is the last one made and the process is aborted. `update` does the same
outside debug mode; in debug mode it does so for every call but
`LastInsertId`, whose error it drops. -/
theorem operations_fatal_on_error {σ : Type} (c : Conn σ) (debug : Bool) (rnd : Entropy)
    (now : Time) (host code : String) (db : σ) :
    guarded (fun _ => true) (insert c debug rnd now host code ⟨db, []⟩) = true ∧
      guarded (fun call => call != Call.LastInsertId) (update c debug host code ⟨db, []⟩) = true ∧
      guarded (fun _ => true) (update c false host code ⟨db, []⟩) = true ∧
      guarded (fun _ => true) (deleteOne c host code ⟨db, []⟩) = true ∧
      guarded (fun _ => true) (selectOne c host code ⟨db, []⟩) = true ∧
      guarded (fun _ => true) (selectCount c host ⟨db, []⟩) = true :=
  ⟨guarded_insert c debug rnd now host code db, (guarded_update c debug host code db).1,
    (guarded_update c debug host code db).2, guarded_deleteOne c host code db,
    guarded_selectOne c host code db, guarded_selectCount c host db⟩

/-- C7 (counterexample). In debug mode, on a store whose `LastInsertId` returns
an error, `update` makes that failed call and returns normally. -/
theorem update_survives_lastInsertId_error :
    (update noLastIdConn true "h" "c" ⟨(), []⟩).result = .ok () ∧
      (⟨Call.LastInsertId, true⟩ : Event) ∈ (update noLastIdConn true "h" "c" ⟨(), []⟩).world.log ∧
      guarded (fun _ => true) (update noLastIdConn true "h" "c" ⟨(), []⟩) = false := by
  decide


theorem update_split {σ : Type} (c : Conn σ) (debug : Bool) (host code : String)
    (w w1 w2 : World σ) (t : Test) (h1 : updateExec c debug host code w = .ok () w1)
    (h2 : selectOne c host code w1 = .ok t w2) :
    update c debug host code w =
      if t.IsTest then .abort (.fatal "unexpected is_test = true when after update") w2
      else .ok () w2 := by
  cases ht : t.IsTest <;>
    simp [update, updateCheck, Run.bind, Run.pure, logFatal, h1, h2, ht]

/-- C6. Let `used` be the code `insert(host, code)` works with and returns: the
given code, or the generated one when the given code is empty. For every table
with no row for it: after the insert, `selectOne(host, used)` returns
`is_test = true`, a following `update(host, used)` returns normally, and
`selectOne(host, used)` then returns `is_test = false`. On any store, when the
calls of `update`'s statement and of its re-read return normally, `update`
aborts with `log.Fatal` exactly when the row read again has `is_test = true`. -/
theorem update_after_insert (debug : Bool) (rnd : Entropy) (now : Time)
    (host code used : String) (db : String → Table) (log : List Event)
    (hused : (if code = "" then generateUID rnd.unix rnd.read else .ok code) = .ok used)
    (hfresh : matching db host used = []) :
    (∃ w1 w2 w3 w4 t1 t2,
        insert tableConn debug rnd now host code ⟨db, log⟩ = .ok used w1 ∧
        selectOne tableConn host used w1 = .ok t1 w2 ∧ t1.IsTest = true ∧
        update tableConn debug host used w2 = .ok () w3 ∧
        selectOne tableConn host used w3 = .ok t2 w4 ∧ t2.IsTest = false) ∧
      (code ≠ "" → used = code) ∧
      ∀ (σ : Type) (c : Conn σ) (dbg : Bool) (h k : String) (w w1 w2 : World σ) (t : Test),
        updateExec c dbg h k w = .ok () w1 → selectOne c h k w1 = .ok t w2 →
        update c dbg h k w =
          if t.IsTest then .abort (.fatal "unexpected is_test = true when after update") w2
          else .ok () w2 := by
  refine ⟨?_, ?_, fun σ c dbg h k w w1 w2 t h1 h2 => update_split c dbg h k w w1 w2 t h1 h2⟩
  · have hf : ∀ r ∈ (db host).rows, r.Code ≠ used := filter_code_eq_nil.1 hfresh
    have hins : ∃ l1, insert tableConn debug rnd now host code ⟨db, log⟩ =
        .ok used ⟨Function.update db host
          ((db host).exec (.insertRow used "test" true now)).2, l1⟩ := by
      by_cases hc : code = ""
      · rw [if_pos hc] at hused
        rw [hc]
        exact insert_table_fresh debug rnd now host used db log hused
      · rw [if_neg hc] at hused
        cases hused
        exact insert_table debug rnd now host code db log hc
    obtain ⟨l1, h1⟩ := hins
    obtain ⟨db1, hdb1⟩ : ∃ d, d = Function.update db host
        ((db host).exec (.insertRow used "test" true now)).2 := ⟨_, rfl⟩
    rw [← hdb1] at h1
    have t1 : db1 host = ⟨(db host).rows ++ [⟨(db host).nextID, used, "test", true, now⟩],
        (db host).nextID + 1⟩ := by
      rw [hdb1]; simp [Table.exec]
    have hm1 : matching db1 host used = [⟨(db host).nextID, used, "test", true, now⟩] := by
      simp [matching, t1, List.filter_append, filter_code_eq_nil.2 hf]
    have s1 := selectOne_table host used db1 l1
    rw [hm1] at s1
    obtain ⟨l2, h2⟩ := updateExec_table debug host used db1
      (l1 ++ [⟨.Query, false⟩, ⟨.Scan, false⟩])
    obtain ⟨db2, hdb2⟩ : ∃ d, d = Function.update db1 host
        ((db1 host).exec (.updateFlag used)).2 := ⟨_, rfl⟩
    rw [← hdb2] at h2
    have t2 : db2 host = ⟨(db host).rows ++ [⟨(db host).nextID, used, "test", false, now⟩],
        (db host).nextID + 1⟩ := by
      rw [hdb2]; simp [Table.exec, t1, map_clear_of_fresh hf]
    have hm2 : matching db2 host used = [⟨(db host).nextID, used, "test", false, now⟩] := by
      simp [matching, t2, List.filter_append, filter_code_eq_nil.2 hf]
    have s2 := selectOne_table host used db2 l2
    rw [hm2] at s2
    have s3 := selectOne_table host used db2 (l2 ++ [⟨.Query, false⟩, ⟨.Scan, false⟩])
    rw [hm2] at s3
    refine ⟨_, _, _, _, _, _, h1, s1, rfl, ?_, s3, rfl⟩
    rw [update_split tableConn debug host used _ _ _ _ h2 s2]
    simp
  · intro hc
    rw [if_neg hc] at hused
    cases hused
    rfl

/-- The statement of C6 for the sequence `load` runs, `insert(host, "")` and then
`update` with the returned code, on an empty table; and its general part on a
store whose re-read still shows the flag set. -/
theorem update_after_insert_witness :
    ((if ("" : String) = "" then generateUID 5 (.ok (List.replicate 10 0)) else .ok "")
        = .ok "353030303030303030303030303030303030303030" ∧
      matching (fun _ => Table.empty) "h" "353030303030303030303030303030303030303030" = []) ∧
      (∃ w1 w2 w3 w4 t1 t2,
        insert tableConn true ⟨5, .ok (List.replicate 10 0)⟩ 7 "h" "" ⟨fun _ => Table.empty, []⟩
          = .ok "353030303030303030303030303030303030303030" w1 ∧
        selectOne tableConn "h" "353030303030303030303030303030303030303030" w1 = .ok t1 w2 ∧
        t1.IsTest = true ∧
        update tableConn true "h" "353030303030303030303030303030303030303030" w2 = .ok () w3 ∧
        selectOne tableConn "h" "353030303030303030303030303030303030303030" w3 = .ok t2 w4 ∧
        t2.IsTest = false) ∧
      (update staleConn false "h" "ab" ⟨(), []⟩).result
        = .error (.fatal "unexpected is_test = true when after update") :=
  ⟨⟨by decide, by decide⟩,
    (update_after_insert true ⟨5, .ok (List.replicate 10 0)⟩ 7 "h" ""
      "353030303030303030303030303030303030303030" (fun _ => Table.empty) [] (by decide)
      (by decide)).1,
    by
      rw [(update_after_insert true ⟨5, .ok (List.replicate 10 0)⟩ 7 "h" ""
        "353030303030303030303030303030303030303030" (fun _ => Table.empty) [] (by decide)
        (by decide)).2.2 Unit staleConn false "h" "ab" ⟨(), []⟩ ⟨(), [⟨.Exec, false⟩]⟩
        ⟨(), [⟨.Exec, false⟩, ⟨.Query, false⟩, ⟨.Scan, false⟩]⟩
        ⟨1, "ab", "test", true, 0⟩ rfl rfl]
      rfl⟩

/-! ## Theorems: the scheduler on any store -/

theorem countP_set {α : Type} (p : α → Bool) :
    ∀ (l : List α) (j : Nat) (g g' : α), l[j]? = some g →
      (l.set j g').countP p + (if p g then 1 else 0) = l.countP p + (if p g' then 1 else 0) := by
  intro l
  induction l with
  | nil => intro j g g' h; simp at h
  | cons a l ih =>
    intro j g g' h
    cases j with
    | zero =>
      simp only [List.getElem?_cons_zero, Option.some.injEq] at h
      subst h
      simp only [List.set_cons_zero, List.countP_cons]
      omega
    | succ j =>
      simp only [List.getElem?_cons_succ] at h
      have := ih j g g' h
      simp only [List.set_cons_succ, List.countP_cons]
      omega

theorem countP_set_same {α : Type} (p : α → Bool) (g' : α) {l : List α} {j : Nat} {g : α}
    (hj : l[j]? = some g) (h : p g' = p g) : (l.set j g').countP p = l.countP p := by
  have := countP_set p l j g g' hj
  rw [h] at this
  omega

theorem countP_set_gain {α : Type} (p : α → Bool) (g' : α) {l : List α} {j : Nat} {g : α}
    (hj : l[j]? = some g) (h : p g = false) (h' : p g' = true) :
    (l.set j g').countP p = l.countP p + 1 := by
  have := countP_set p l j g g' hj
  rw [h, h'] at this
  simpa using this

theorem countP_set_lose {α : Type} (p : α → Bool) (g' : α) {l : List α} {j : Nat} {g : α}
    (hj : l[j]? = some g) (h : p g = true) (h' : p g' = false) :
    (l.set j g').countP p + 1 = l.countP p := by
  have := countP_set p l j g g' hj
  rw [h, h'] at this
  simpa using this

theorem sum_map_set {α : Type} (f : α → Nat) :
    ∀ (l : List α) (j : Nat) (g g' : α), l[j]? = some g →
      ((l.set j g').map f).sum + f g = (l.map f).sum + f g' := by
  intro l
  induction l with
  | nil => intro j g g' h; simp at h
  | cons a l ih =>
    intro j g g' h
    cases j with
    | zero =>
      simp only [List.getElem?_cons_zero, Option.some.injEq] at h
      subst h
      simp only [List.set_cons_zero, List.map_cons, List.sum_cons]
      omega
    | succ j =>
      simp only [List.getElem?_cons_succ] at h
      have := ih j g g' h
      simp only [List.set_cons_succ, List.map_cons, List.sum_cons]
      omega

theorem getElem?_set_some {α : Type} {l : List α} {j k : Nat} {g g' x : α}
    (hj : l[j]? = some g) (hk : (l.set j g')[k]? = some x) :
    (k = j ∧ x = g') ∨ (k ≠ j ∧ l[k]? = some x) := by
  by_cases hkj : k = j
  · subst hkj
    have hlt : k < l.length := by
      rcases Nat.lt_or_ge k l.length with h | h
      · exact h
      · rw [List.getElem?_eq_none h] at hj; cases hj
    rw [List.getElem?_set_self hlt] at hk
    exact Or.inl ⟨rfl, (Option.some.inj hk).symm⟩
  · rw [List.getElem?_set_ne (Ne.symm hkj)] at hk
    exact Or.inr ⟨hkj, hk⟩

theorem inv_init (cfg : Config) {σ : Type} (w : World σ) : Inv cfg (Sys.init w) where
  len := rfl
  le := Nat.zero_le _
  sema := rfl
  cap := Nat.zero_le _
  wg := rfl
  host := by intro j g h; simp [Sys.init] at h
  left := by intro h; rcases h with h | h | h <;> cases h

/-- A step of goroutine `j` keeps the invariant when the channel and the wait
group change the way the goroutine's program counter does. -/
theorem inv_set {cfg : Config} {σ : Type} {s : Sys σ} (hI : Inv cfg s) {j : Nat}
    {g : Goroutine} (g' : Goroutine) (hj : s.gs[j]? = some g) (hh : g'.host = g.host)
    (hi : g'.hostIndex = g.hostIndex) (sema' wg' : Nat)
    (hsema : sema' + (if g.pc.holdsSlot = true then 1 else 0)
      = s.sema + (if g'.pc.holdsSlot = true then 1 else 0))
    (hcap : sema' ≤ cfg.parallelNum)
    (hwg : wg' + (if g.pc.pending = true then 1 else 0)
      = s.wg + (if g'.pc.pending = true then 1 else 0))
    (w : World σ) (ab : Option Abort) :
    Inv cfg { s with sema := sema', wg := wg', world := w, aborted := ab,
                     gs := s.gs.set j g' } where
  len := by simpa using hI.len
  le := hI.le
  sema := by
    have := countP_set (fun g => g.pc.holdsSlot) s.gs j g g' hj
    dsimp only at this
    have h0 := hI.sema
    simp only [Sys.holding] at h0 ⊢
    show sema' = _
    omega
  cap := hcap
  wg := by
    have := countP_set (fun g => g.pc.pending) s.gs j g g' hj
    dsimp only at this
    have h0 := hI.wg
    simp only [Sys.pending] at h0 ⊢
    show wg' = _
    omega
  host := by
    intro k x hk
    rcases getElem?_set_some hj hk with ⟨rfl, rfl⟩ | ⟨_, h⟩
    · rw [hi, hh]; exact hI.host _ g hj
    · exact hI.host _ _ h
  left := hI.left

theorem inv_world {cfg : Config} {σ : Type} {s : Sys σ} (hI : Inv cfg s) (w : World σ)
    (ab : Option Abort) : Inv cfg { s with world := w, aborted := ab } :=
  ⟨hI.len, hI.le, hI.sema, hI.cap, hI.wg, hI.host, hI.left⟩

theorem inv_settle {cfg : Config} {σ α : Type} {s : Sys σ} (hI : Inv cfg s) {j : Nat}
    {g : Goroutine} (hj : s.gs[j]? = some g) (out : Outcome σ α) (next : α → Goroutine)
    (hg : g.pc.holdsSlot = true) (hp : g.pc.pending = true)
    (hh : ∀ a, (next a).host = g.host) (hi : ∀ a, (next a).hostIndex = g.hostIndex)
    (hs : ∀ a, (next a).pc.holdsSlot = true) (hf : ∀ a, (next a).pc.pending = true) :
    Inv cfg (s.settle j g out next) := by
  cases out with
  | ok a w =>
    exact inv_set hI (next a) hj (hh a) (hi a) s.sema s.wg (by rw [hg, hs a]) hI.cap
      (by rw [hp, hf a]) w s.aborted
  | abort x w =>
    cases x with
    | panic err =>
      exact inv_set hI { g with pc := .unwindRelease (.panic err) } hj rfl rfl s.sema s.wg
        (by rw [hg]; rfl) hI.cap (by rw [hp]; rfl) w s.aborted
    | fatal msg => exact inv_world hI w _

theorem getElem?_append_one {α : Type} {l : List α} {a x : α} {k : Nat}
    (hk : (l ++ [a])[k]? = some x) : (k < l.length ∧ l[k]? = some x) ∨ (k = l.length ∧ x = a) := by
  rcases Nat.lt_trichotomy k l.length with h | h | h
  · rw [List.getElem?_append_left h] at hk
    exact Or.inl ⟨h, hk⟩
  · subst h
    simp at hk
    exact Or.inr ⟨rfl, hk.symm⟩
  · rw [List.getElem?_eq_none (by simp; omega)] at hk
    cases hk

theorem inv_mainFails {cfg : Config} {σ : Type} {s : Sys σ} (hI : Inv cfg s) (x : Abort)
    (w : World σ) : Inv cfg (s.mainFails x w) := by
  cases x with
  | panic err =>
    refine ⟨hI.len, hI.le, hI.sema, hI.cap, hI.wg, hI.host, ?_⟩
    intro h
    rcases h with h | h | h <;> cases h
  | fatal msg => exact inv_world hI w _

theorem stepMain_inv {cfg : Config} {σ : Type} (c : Conn σ) {s s' : Sys σ} (hI : Inv cfg s)
    (h : stepMain cfg c s = some s') : Inv cfg s' := by
  unfold stepMain at h
  split at h
  · -- the loop
    rename_i hm
    split at h
    · rename_i hlt
      dsimp only at h
      split at h
      · cases h
        exact inv_mainFails hI _ _
      · rename_i host hhost
        cases h
        refine ⟨?_, ?_, ?_, hI.cap, ?_, ?_, ?_⟩
        · simp [hI.len]
        · show s.i + 1 ≤ cfg.reqNum
          omega
        · have := hI.sema
          simp only [Sys.holding] at this ⊢
          simp [List.countP_append, this, PC.holdsSlot]
        · have := hI.wg
          simp only [Sys.pending] at this ⊢
          simp [List.countP_append, this, PC.pending]
        · intro k x hk
          rcases getElem?_append_one hk with ⟨_, hk'⟩ | ⟨rfl, rfl⟩
          · exact hI.host _ _ hk'
          · rw [hI.len]; exact ⟨rfl, hhost⟩
        · intro hx
          have hx' : s.main = .wait ∨ s.main = .report ∨ s.main = .exited := hx
          rw [hm] at hx'
          rcases hx' with hx' | hx' | hx' <;> cases hx'
    · rename_i hge
      cases h
      refine ⟨hI.len, hI.le, hI.sema, hI.cap, hI.wg, hI.host, ?_⟩
      intro _
      have := hI.le
      show s.i = cfg.reqNum
      omega
  · -- wg.Wait()
    rename_i hm
    split at h
    · cases h
      refine ⟨hI.len, hI.le, hI.sema, hI.cap, hI.wg, hI.host, ?_⟩
      intro _
      exact hI.left (Or.inl hm)
    · cases h
  · -- selectCount(hosts[0])
    rename_i hm
    have hl := hI.left (Or.inr (Or.inl hm))
    split at h
    · cases h
      exact inv_mainFails hI _ _
    · split at h
      · cases h
        exact ⟨hI.len, hI.le, hI.sema, hI.cap, hI.wg, hI.host, fun _ => hl⟩
      · cases h
        exact inv_mainFails hI _ _
  · -- a dying `main`: the process ends
    cases h
    exact ⟨hI.len, hI.le, hI.sema, hI.cap, hI.wg, hI.host, hI.left⟩
  · cases h

theorem holding_pos {σ : Type} {s : Sys σ} {j : Nat} {g : Goroutine} (hj : s.gs[j]? = some g)
    (hg : g.pc.holdsSlot = true) : 0 < s.holding := by
  unfold Sys.holding
  rw [List.countP_pos_iff]
  exact ⟨g, List.getElem?_mem hj, hg⟩

theorem inFlight_pos {σ : Type} {s : Sys σ} {j : Nat} {g : Goroutine} (hj : s.gs[j]? = some g)
    (hg : g.pc ≠ .finished) : 0 < s.inFlight := by
  unfold Sys.inFlight
  rw [List.countP_pos_iff]
  exact ⟨g, List.getElem?_mem hj, by simpa using hg⟩

theorem pending_pos {σ : Type} {s : Sys σ} {j : Nat} {g : Goroutine} (hj : s.gs[j]? = some g)
    (hg : g.pc.pending = true) : 0 < s.pending := by
  unfold Sys.pending
  rw [List.countP_pos_iff]
  exact ⟨g, List.getElem?_mem hj, hg⟩

theorem stepUnit_inv {cfg : Config} {σ : Type} (c : Conn σ) (env : Nat → UnitEnv) {s s' : Sys σ}
    {j : Nat} (hI : Inv cfg s) (h : stepUnit cfg c env s j = some s') : Inv cfg s' := by
  unfold stepUnit at h
  split at h
  · cases h
  · rename_i g hj
    have hcap := hI.cap
    split at h
    · -- sema <- 1
      rename_i hpc
      split at h
      · rename_i hlt
        cases h
        exact inv_set hI { g with pc := .insert1 } hj rfl rfl (s.sema + 1) s.wg
          (by rw [hpc]; simp [PC.holdsSlot]) (by omega) (by rw [hpc]; simp [PC.pending])
          s.world s.aborted
      · cases h
    · rename_i hpc
      cases h
      exact inv_settle hI hj _ _ (by rw [hpc]; rfl) (by rw [hpc]; rfl) (fun _ => rfl)
        (fun _ => rfl) (fun _ => rfl) (fun _ => rfl)
    · rename_i hpc
      cases h
      exact inv_settle hI hj _ _ (by rw [hpc]; rfl) (by rw [hpc]; rfl) (fun _ => rfl)
        (fun _ => rfl) (fun _ => rfl) (fun _ => rfl)
    · rename_i hpc
      cases h
      exact inv_settle hI hj _ _ (by rw [hpc]; rfl) (by rw [hpc]; rfl) (fun _ => rfl)
        (fun _ => rfl) (fun _ => rfl) (fun _ => rfl)
    · rename_i hpc
      cases h
      exact inv_settle hI hj _ _ (by rw [hpc]; rfl) (by rw [hpc]; rfl) (fun _ => rfl)
        (fun _ => rfl) (fun _ => rfl) (fun _ => rfl)
    · rename_i hpc
      cases h
      exact inv_settle hI hj _ _ (by rw [hpc]; rfl) (by rw [hpc]; rfl) (fun _ => rfl)
        (fun _ => rfl) (fun _ => rfl) (fun _ => rfl)
    · -- <-sema
      rename_i hpc
      split at h
      · rename_i hpos
        cases h
        exact inv_set hI { g with pc := .wgDone } hj rfl rfl (s.sema - 1) s.wg
          (by rw [hpc]; simp [PC.holdsSlot]; omega) (by omega) (by rw [hpc]; simp [PC.pending])
          s.world s.aborted
      · cases h
    · -- wg.Done()
      rename_i hpc
      have hp := pending_pos hj (by rw [hpc]; rfl)
      have hw := hI.wg
      split at h
      · rename_i hpos
        cases h
        exact inv_set hI { g with pc := .finished } hj rfl rfl s.sema (s.wg - 1)
          (by rw [hpc]; simp [PC.holdsSlot]) hcap (by rw [hpc]; simp [PC.pending]; omega)
          s.world s.aborted
      · omega
    · cases h
    · -- panicking: <-sema
      rename_i x hpc
      split at h
      · rename_i hpos
        cases h
        exact inv_set hI { g with pc := .unwindDone x } hj rfl rfl (s.sema - 1) s.wg
          (by rw [hpc]; simp [PC.holdsSlot]; omega) (by omega) (by rw [hpc]; simp [PC.pending])
          s.world s.aborted
      · cases h
    · -- panicking: wg.Done()
      rename_i x hpc
      have hp := pending_pos hj (by rw [hpc]; rfl)
      have hw := hI.wg
      split at h
      · rename_i hpos
        cases h
        exact inv_set hI { g with pc := .dying x } hj rfl rfl s.sema (s.wg - 1)
          (by rw [hpc]; simp [PC.holdsSlot]) hcap (by rw [hpc]; simp [PC.pending]; omega)
          s.world s.aborted
      · omega
    · -- panicking: the process ends
      cases h
      exact inv_world hI s.world _

theorem step?_inv {cfg : Config} {σ : Type} (c : Conn σ) (env : Nat → UnitEnv) {s s' : Sys σ}
    {a : Action} (hI : Inv cfg s) (h : step? cfg c env s a = some s') : Inv cfg s' := by
  unfold step? at h
  split at h
  · cases h
  · cases a with
    | main => exact stepMain_inv c hI h
    | unit j => exact stepUnit_inv c env hI h

theorem step_inv {cfg : Config} {σ : Type} (c : Conn σ) (env : Nat → UnitEnv) {s : Sys σ}
    (a : Action) (hI : Inv cfg s) : Inv cfg (step cfg c env s a) := by
  unfold step
  cases h : step? cfg c env s a with
  | none => exact hI
  | some s' => exact step?_inv c env hI h

theorem runFrom_inv {cfg : Config} {σ : Type} (c : Conn σ) (env : Nat → UnitEnv)
    (sched : List Action) : ∀ {s : Sys σ}, Inv cfg s → Inv cfg (runFrom cfg c env s sched) := by
  induction sched with
  | nil => intro s h; exact h
  | cons a rest ih => intro s h; exact ih (step_inv c env a h)

theorem run_inv (cfg : Config) {σ : Type} (c : Conn σ) (env : Nat → UnitEnv) (w : World σ)
    (sched : List Action) : Inv cfg (run cfg c env w sched) :=
  runFrom_inv c env sched (inv_init cfg w)


/-- C2. In every state of a run, on any store and for any schedule, the number
of goroutines that have acquired a slot and not yet released it equals the
number of values in the channel and is at most `parallelNum`. A goroutine that
panics inside the body of `load` holds its slot until its deferred `<-sema`
has run; the other goroutines go on meanwhile. -/
theorem admission_gate (cfg : Config) {σ : Type} (c : Conn σ) (env : Nat → UnitEnv)
    (w : World σ) (sched : List Action) :
    (run cfg c env w sched).holding ≤ cfg.parallelNum ∧
      (run cfg c env w sched).holding = (run cfg c env w sched).sema := by
  have h := run_inv cfg c env w sched
  exact ⟨h.sema ▸ h.cap, h.sema.symm⟩

/-- The statement of C2 on a store every call of which fails, with two requests
and capacity one: goroutine 0 acquires the slot and panics in `insert`; it
still holds the slot, so goroutine 1 cannot acquire; after the deferred `<-sema`
of goroutine 0, goroutine 1 acquires the slot, and the process has not ended. -/
theorem admission_gate_witness :
    ((run ⟨["h"], 2, 1, false⟩ downConn demoEnv ⟨(), []⟩
          [.main, .main, .unit 0, .unit 0, .unit 1]).gs.map (fun g => g.pc)
        = [.unwindRelease (.panic (.other "connection refused")), .acquire] ∧
      (run ⟨["h"], 2, 1, false⟩ downConn demoEnv ⟨(), []⟩
          [.main, .main, .unit 0, .unit 0, .unit 1]).holding = 1) ∧
      ((run ⟨["h"], 2, 1, false⟩ downConn demoEnv ⟨(), []⟩
          [.main, .main, .unit 0, .unit 0, .unit 1, .unit 0, .unit 1]).gs.map (fun g => g.pc)
        = [.unwindDone (.panic (.other "connection refused")), .insert1] ∧
      (run ⟨["h"], 2, 1, false⟩ downConn demoEnv ⟨(), []⟩
          [.main, .main, .unit 0, .unit 0, .unit 1, .unit 0, .unit 1]).aborted = none) ∧
      (run ⟨["h"], 2, 1, false⟩ downConn demoEnv ⟨(), []⟩
          [.main, .main, .unit 0, .unit 0, .unit 1, .unit 0, .unit 1]).holding
        ≤ (⟨["h"], 2, 1, false⟩ : Config).parallelNum ∧
      (run ⟨["h"], 2, 1, false⟩ downConn demoEnv ⟨(), []⟩
          [.main, .main, .unit 0, .unit 0, .unit 1, .unit 0, .unit 1]).holding
        = (run ⟨["h"], 2, 1, false⟩ downConn demoEnv ⟨(), []⟩
          [.main, .main, .unit 0, .unit 0, .unit 1, .unit 0, .unit 1]).sema :=
  ⟨by decide, by decide,
    admission_gate ⟨["h"], 2, 1, false⟩ downConn demoEnv ⟨(), []⟩
      [.main, .main, .unit 0, .unit 0, .unit 1, .unit 0, .unit 1]⟩

theorem launch_step {cfg : Config} {σ : Type} (c : Conn σ) (env : Nat → UnitEnv) {s : Sys σ}
    (hH : cfg.hosts ≠ []) (hm : s.main = .loop) (ha : s.aborted = none) (hi : s.i < cfg.reqNum) :
    ∃ host, cfg.hosts[s.i % cfg.hosts.length]? = some host ∧
      step cfg c env s .main =
        { s with
          wg := s.wg + 1
          gs := s.gs ++ [{ host := host, hostIndex := s.i % cfg.hosts.length, pc := .acquire,
                           code := "" }]
          i := s.i + 1 } := by
  have hpos : 0 < cfg.hosts.length := List.length_pos.2 hH
  have hlt : s.i % cfg.hosts.length < cfg.hosts.length := Nat.mod_lt _ hpos
  refine ⟨cfg.hosts[s.i % cfg.hosts.length], List.getElem?_eq_getElem hlt, ?_⟩
  simp [step, step?, ha, hm, stepMain, hi, List.getElem?_eq_getElem hlt]

theorem launch_all {cfg : Config} {σ : Type} (c : Conn σ) (env : Nat → UnitEnv) (w : World σ)
    (hH : cfg.hosts ≠ []) : ∀ k, k ≤ cfg.reqNum →
      (run cfg c env w (List.replicate k .main)).main = .loop ∧
      (run cfg c env w (List.replicate k .main)).aborted = none ∧
      (run cfg c env w (List.replicate k .main)).i = k ∧
      (run cfg c env w (List.replicate k .main)).inFlight = k := by
  intro k
  induction k with
  | zero => intro _; exact ⟨rfl, rfl, rfl, rfl⟩
  | succ k ih =>
    intro hk
    obtain ⟨h1, h2, h3, h4⟩ := ih (by omega)
    obtain ⟨host, _, hs⟩ := launch_step c env hH h1 h2 (by omega)
    have e : run cfg c env w (List.replicate (k + 1) .main)
        = step cfg c env (run cfg c env w (List.replicate k .main)) .main := by
      simp [run, runFrom, List.replicate_succ', List.foldl_append]
    rw [e, hs]
    refine ⟨h1, h2, by simp [h3], ?_⟩
    simp only [Sys.inFlight] at h4 ⊢
    rw [List.countP_append, h4]
    simp

/-- C10 (counterexample). With `parallelNum = 1` and two requests, `main`
launches the second goroutine while the first is unfinished: after two steps of
`main` two goroutines are in flight. -/
theorem launch_exceeds_parallel :
    (run ⟨["h"], 2, 1, false⟩ tableConn
        (fun _ => ⟨⟨0, .ok []⟩, 0, ⟨0, .ok []⟩, 0⟩) ⟨fun _ => Table.empty, []⟩
        [.main]).inFlight = 1 ∧
      (run ⟨["h"], 2, 1, false⟩ tableConn
        (fun _ => ⟨⟨0, .ok []⟩, 0, ⟨0, .ok []⟩, 0⟩) ⟨fun _ => Table.empty, []⟩
        [.main, .main]).inFlight = 2 ∧
      ¬ (run ⟨["h"], 2, 1, false⟩ tableConn
        (fun _ => ⟨⟨0, .ok []⟩, 0, ⟨0, .ok []⟩, 0⟩) ⟨fun _ => Table.empty, []⟩
        [.main, .main]).inFlight ≤ (⟨["h"], 2, 1, false⟩ : Config).parallelNum := by
  decide

/-- C10 (amended). A launch step of `main` is possible in its loop whenever
fewer than `reqNum` goroutines have been launched, however many of them are
unfinished: the slot is acquired inside the launched goroutine and blocks only
that goroutine. In every state the number of goroutines launched and not yet
completed is at most `reqNum`, and all `reqNum` can be in flight at once. -/
theorem launch_not_gated (cfg : Config) {σ : Type} (c : Conn σ) (env : Nat → UnitEnv)
    (w : World σ) (sched : List Action) (hH : cfg.hosts ≠ []) :
    (run cfg c env w sched).inFlight ≤ cfg.reqNum ∧
      ((run cfg c env w sched).main = .loop → (run cfg c env w sched).aborted = none →
        (run cfg c env w sched).i < cfg.reqNum →
        (step cfg c env (run cfg c env w sched) .main).inFlight
          = (run cfg c env w sched).inFlight + 1) ∧
      (run cfg c env w (List.replicate cfg.reqNum .main)).inFlight = cfg.reqNum := by
  have h := run_inv cfg c env w sched
  refine ⟨?_, ?_, (launch_all c env w hH cfg.reqNum (Nat.le_refl _)).2.2.2⟩
  · have := List.countP_le_length (fun g => decide (g.pc ≠ .finished)) (l := (run cfg c env w sched).gs)
    have h1 := h.len
    have h2 := h.le
    simp only [Sys.inFlight]
    omega
  · intro hm ha hi
    obtain ⟨host, _, hs⟩ := launch_step c env hH hm ha hi
    rw [hs]
    simp [Sys.inFlight, List.countP_append]

/-- The statement of C10 (amended) for two requests and a gate of capacity one. -/
theorem launch_not_gated_witness :
    ((⟨["h"], 2, 1, false⟩ : Config).hosts ≠ []) ∧
      (run ⟨["h"], 2, 1, false⟩ tableConn
          (fun _ => ⟨⟨0, .ok []⟩, 0, ⟨0, .ok []⟩, 0⟩) ⟨fun _ => Table.empty, []⟩
          [.main]).inFlight ≤ 2 ∧
      (step ⟨["h"], 2, 1, false⟩ tableConn (fun _ => ⟨⟨0, .ok []⟩, 0, ⟨0, .ok []⟩, 0⟩)
          (run ⟨["h"], 2, 1, false⟩ tableConn
            (fun _ => ⟨⟨0, .ok []⟩, 0, ⟨0, .ok []⟩, 0⟩) ⟨fun _ => Table.empty, []⟩ [.main])
          .main).inFlight = 1 + 1 ∧
      (run ⟨["h"], 2, 1, false⟩ tableConn
          (fun _ => ⟨⟨0, .ok []⟩, 0, ⟨0, .ok []⟩, 0⟩) ⟨fun _ => Table.empty, []⟩
          (List.replicate 2 .main)).inFlight = 2 :=
  have h := launch_not_gated ⟨["h"], 2, 1, false⟩ tableConn
    (fun _ => ⟨⟨0, .ok []⟩, 0, ⟨0, .ok []⟩, 0⟩) ⟨fun _ => Table.empty, []⟩ [.main] (by decide)
  ⟨by decide, h.1, h.2.1 (by decide) (by decide) (by decide), h.2.2⟩

theorem assigned_eq_count {H k : Nat} :
    ∀ gs : List Goroutine, (∀ j g, gs[j]? = some g → g.hostIndex = j % H) →
      gs.countP (fun g => g.hostIndex = k) = Nat.count (fun i => i % H = k) gs.length := by
  intro gs
  induction gs using List.reverseRecOn with
  | nil => intro _; simp
  | append_singleton l a ih =>
    intro h
    have ha : a.hostIndex = l.length % H := h l.length a (by simp)
    have hl : ∀ j g, l[j]? = some g → g.hostIndex = j % H := by
      intro j g hj
      have hlt : j < l.length := by
        rcases Nat.lt_or_ge j l.length with h' | h'
        · exact h'
        · rw [List.getElem?_eq_none h'] at hj; cases hj
      exact h j g (by rw [List.getElem?_append_left hlt]; exact hj)
    rw [List.countP_append, ih hl, List.length_append, List.length_singleton, Nat.count_succ]
    by_cases hx : l.length % H = k <;> simp [ha, hx]

theorem count_range_filter (p : Nat → Prop) [DecidablePred p] (n : Nat) :
    Nat.count p n = ((List.range n).filter (fun i => decide (p i))).length := by
  induction n with
  | zero => simp
  | succ n ih =>
    rw [Nat.count_succ, List.range_succ, List.filter_append, List.length_append, ih]
    by_cases h : p n <;> simp [h]

theorem count_mod_eq {H k : Nat} (hk : k < H) (n : Nat) :
    Nat.count (fun i => i % H = k) n = Nat.count (fun i => i ≡ k [MOD H]) n := by
  induction n with
  | zero => simp
  | succ n ih =>
    rw [Nat.count_succ, Nat.count_succ, ih]
    have : (n ≡ k [MOD H]) ↔ n % H = k := by
      unfold Nat.ModEq
      rw [Nat.mod_eq_of_lt hk]
    simp only [this]

/-- C1. With a non-empty host list of length `H`, in every state of a run
goroutine number `i` was launched with `hostIndex = i % H` and
`host = hosts[i % H]`; once `main` has launched all `reqNum = R` goroutines, the
number of them with host index `k < H` is `⌈(R - k) / H⌉`, the number of
`i < R` with `i % H = k`; and `R` steps of `main` launch all of them. -/
theorem round_robin (cfg : Config) {σ : Type} (c : Conn σ) (env : Nat → UnitEnv) (w : World σ)
    (sched : List Action) (k : Nat) (hH : cfg.hosts ≠ []) (hk : k < cfg.hosts.length) :
    (∀ i g, (run cfg c env w sched).gs[i]? = some g →
        g.hostIndex = i % cfg.hosts.length ∧ cfg.hosts[i % cfg.hosts.length]? = some g.host) ∧
      ((run cfg c env w sched).i = cfg.reqNum →
        (((run cfg c env w sched).assigned k : Int)
            = ⌈((cfg.reqNum : ℚ) - (k : ℚ)) / (cfg.hosts.length : ℚ)⌉ ∧
          (run cfg c env w sched).assigned k
            = ((List.range cfg.reqNum).filter (fun i => i % cfg.hosts.length = k)).length)) ∧
      (run cfg c env w (List.replicate cfg.reqNum .main)).i = cfg.reqNum := by
  have h := run_inv cfg c env w sched
  have hpos : 0 < cfg.hosts.length := List.length_pos.2 hH
  refine ⟨h.host, ?_, (launch_all c env w hH cfg.reqNum (Nat.le_refl _)).2.2.1⟩
  intro hi
  have e : (run cfg c env w sched).assigned k
      = Nat.count (fun i => i % cfg.hosts.length = k) cfg.reqNum := by
    unfold Sys.assigned
    rw [assigned_eq_count _ (fun j g hj => (h.host j g hj).1), h.len, hi]
  refine ⟨?_, ?_⟩
  · rw [e]
    have hc := Nat.count_modEq_card_eq_ceil (b := cfg.reqNum) hpos k
    rw [Nat.mod_eq_of_lt hk] at hc
    rw [count_mod_eq hk, hc]
  · rw [e, count_range_filter]


/-- The statement of C1 for two hosts and five requests: host index 1 gets two
goroutines, and the hosts are assigned in turn. -/
theorem round_robin_witness :
    ((["a", "b"] : List String) ≠ [] ∧ 1 < (["a", "b"] : List String).length) ∧
      (((run ⟨["a", "b"], 5, 2, false⟩ tableConn demoEnv ⟨fun _ => Table.empty, []⟩
          (List.replicate 5 .main)).assigned 1 : Int)
        = ⌈(((5 : Nat) : ℚ) - ((1 : Nat) : ℚ)) / (((["a", "b"] : List String).length : Nat) : ℚ)⌉) ∧
      (run ⟨["a", "b"], 5, 2, false⟩ tableConn demoEnv ⟨fun _ => Table.empty, []⟩
          (List.replicate 5 .main)).assigned 1 = 2 ∧
      (run ⟨["a", "b"], 5, 2, false⟩ tableConn demoEnv ⟨fun _ => Table.empty, []⟩
          (List.replicate 5 .main)).gs.map (fun g => g.host) = ["a", "b", "a", "b", "a"] :=
  ⟨⟨by decide, by decide⟩,
    ((round_robin ⟨["a", "b"], 5, 2, false⟩ tableConn demoEnv ⟨fun _ => Table.empty, []⟩
      (List.replicate 5 .main) 1 (by decide) (by decide)).2.1 (by decide)).1,
    by decide, by decide⟩

/-! ## Theorems: the scheduler on the table store -/

theorem getElem?_lt {α : Type} {l : List α} {j : Nat} {g : α} (hj : l[j]? = some g) :
    j < l.length := by
  rcases Nat.lt_or_ge j l.length with h | h
  · exact h
  · rw [List.getElem?_eq_none h] at hj; cases hj

theorem getElem?_set_at {α : Type} {l : List α} {j : Nat} {g : α} (g' : α)
    (hj : l[j]? = some g) : (l.set j g')[j]? = some g' :=
  List.getElem?_set_self (getElem?_lt hj)

theorem tabInv_owner {code : Nat → String} {rows : List Test} {gs : List Goroutine} {R : Nat}
    (hT : TabInv code rows gs) (hinj : ∀ a b, a < R → b < R → code a = code b → a = b)
    (hlen : gs.length ≤ R) {j : Nat} {g : Goroutine} (hj : gs[j]? = some g) {r : Test}
    (hr : r ∈ rows) (hc : r.Code = code j) : g.pc.expect = some r.IsTest := by
  obtain ⟨j0, g0, hj0, hc0, he0⟩ := hT.owned r hr
  have e : j0 = j := hinj j0 j (by have := getElem?_lt hj0; omega)
    (by have := getElem?_lt hj; omega) (by rw [← hc0, hc])
  subst e
  rw [hj] at hj0
  cases hj0
  exact he0

theorem tabInv_fresh {code : Nat → String} {rows : List Test} {gs : List Goroutine} {R : Nat}
    (hT : TabInv code rows gs) (hinj : ∀ a b, a < R → b < R → code a = code b → a = b)
    (hlen : gs.length ≤ R) {j : Nat} {g : Goroutine} (hj : gs[j]? = some g)
    (he : g.pc.expect = none) : ∀ r ∈ rows, r.Code ≠ code j := by
  intro r hr hc
  have := tabInv_owner hT hinj hlen hj hr hc
  rw [he] at this
  cases this

theorem tabInv_same {code : Nat → String} {rows : List Test} {gs : List Goroutine}
    (hT : TabInv code rows gs) {j : Nat} {g g' : Goroutine} (hj : gs[j]? = some g)
    (he : g'.pc.expect = g.pc.expect) : TabInv code rows (gs.set j g') where
  nodup := hT.nodup
  owned := by
    intro r hr
    obtain ⟨j0, g0, hj0, hc0, he0⟩ := hT.owned r hr
    by_cases e : j0 = j
    · subst e
      rw [hj] at hj0
      cases hj0
      exact ⟨j0, g', getElem?_set_at g' hj, hc0, by rw [he]; exact he0⟩
    · exact ⟨j0, g0, by rw [List.getElem?_set_ne (Ne.symm e)]; exact hj0, hc0, he0⟩
  stored := by
    intro k x hk hx
    rcases getElem?_set_some hj hk with ⟨rfl, rfl⟩ | ⟨_, h⟩
    · exact hT.stored _ g hj (by rw [← he]; exact hx)
    · exact hT.stored _ _ h hx

theorem tabInv_launch {code : Nat → String} {rows : List Test} {gs : List Goroutine}
    (hT : TabInv code rows gs) {g' : Goroutine} (he : g'.pc.expect = none) :
    TabInv code rows (gs ++ [g']) where
  nodup := hT.nodup
  owned := by
    intro r hr
    obtain ⟨j0, g0, hj0, hc0, he0⟩ := hT.owned r hr
    exact ⟨j0, g0, by rw [List.getElem?_append_left (getElem?_lt hj0)]; exact hj0, hc0, he0⟩
  stored := by
    intro k x hk hx
    rcases getElem?_append_one hk with ⟨_, h⟩ | ⟨_, rfl⟩
    · exact hT.stored _ _ h hx
    · rw [he] at hx; cases hx

theorem tabInv_insert {code : Nat → String} {rows : List Test} {gs : List Goroutine} {R : Nat}
    (hT : TabInv code rows gs) (hinj : ∀ a b, a < R → b < R → code a = code b → a = b)
    (hlen : gs.length ≤ R) (g' : Goroutine) {j : Nat} {g : Goroutine} (hj : gs[j]? = some g)
    (he : g.pc.expect = none) (he' : g'.pc.expect = some true) (id : Int) (text : String)
    (createdAt : Time) :
    TabInv code (rows ++ [⟨id, code j, text, true, createdAt⟩]) (gs.set j g') where
  nodup := by
    rw [List.map_append, List.nodup_append]
    refine ⟨hT.nodup, by simp, ?_⟩
    intro a ha hb
    simp only [List.map_cons, List.map_nil, List.mem_singleton] at hb
    obtain ⟨r, hr, hra⟩ := List.mem_map.1 ha
    exact tabInv_fresh hT hinj hlen hj he r hr (by rw [hra, hb])
  owned := by
    intro r hr
    rcases List.mem_append.1 hr with h | h
    · obtain ⟨j0, g0, hj0, hc0, he0⟩ := hT.owned r h
      have e : j0 ≠ j := by
        intro e
        subst e
        rw [hj] at hj0
        cases hj0
        rw [he] at he0
        cases he0
      exact ⟨j0, g0, by rw [List.getElem?_set_ne (Ne.symm e)]; exact hj0, hc0, he0⟩
    · simp only [List.mem_singleton] at h
      subst h
      exact ⟨j, g', getElem?_set_at g' hj, rfl, he'⟩
  stored := by
    intro k x hk hx
    rcases getElem?_set_some hj hk with ⟨rfl, rfl⟩ | ⟨_, h⟩
    · exact ⟨_, List.mem_append_right _ (List.mem_singleton_self _), rfl⟩
    · obtain ⟨r, hr, hc⟩ := hT.stored _ _ h hx
      exact ⟨r, List.mem_append_left _ hr, hc⟩

theorem tabInv_update {code : Nat → String} {rows : List Test} {gs : List Goroutine}
    (hT : TabInv code rows gs) (g' : Goroutine) {j : Nat} {g : Goroutine} (hj : gs[j]? = some g)
    (he : g.pc.expect.isSome = true) (he' : g'.pc.expect = some false) :
    TabInv code
      (rows.map (fun r => if r.Code = code j then { r with IsTest := false } else r))
      (gs.set j g') where
  nodup := by
    rw [List.map_map]
    have e : ((fun r : Test => r.Code) ∘
        fun r => if r.Code = code j then { r with IsTest := false } else r)
        = fun r => r.Code := by
      funext r
      simp only [Function.comp]
      split <;> rfl
    rw [e]
    exact hT.nodup
  owned := by
    intro r' hr'
    obtain ⟨r, hr, hrr⟩ := List.mem_map.1 hr'
    by_cases hc : r.Code = code j
    · rw [if_pos hc] at hrr
      subst hrr
      exact ⟨j, g', getElem?_set_at g' hj, hc, he'⟩
    · rw [if_neg hc] at hrr
      subst hrr
      obtain ⟨j0, g0, hj0, hc0, he0⟩ := hT.owned r hr
      have e : j0 ≠ j := by
        intro e
        subst e
        exact hc hc0
      exact ⟨j0, g0, by rw [List.getElem?_set_ne (Ne.symm e)]; exact hj0, hc0, he0⟩
  stored := by
    intro k x hk hx
    have key : ∀ k0 g0, gs[k0]? = some g0 → g0.pc.expect.isSome = true →
        ∃ r ∈ rows.map (fun r => if r.Code = code j then { r with IsTest := false } else r),
          r.Code = code k0 := by
      intro k0 g0 h0 hx0
      obtain ⟨r, hr, hc⟩ := hT.stored _ _ h0 hx0
      refine ⟨_, List.mem_map.2 ⟨r, hr, rfl⟩, ?_⟩
      split <;> exact hc
    rcases getElem?_set_some hj hk with ⟨rfl, rfl⟩ | ⟨_, h⟩
    · exact key _ g hj he
    · exact key _ _ h hx

theorem tabInv_delete {code : Nat → String} {rows : List Test} {gs : List Goroutine} {R : Nat}
    (hT : TabInv code rows gs) (hinj : ∀ a b, a < R → b < R → code a = code b → a = b)
    (hlen : gs.length ≤ R) (g' : Goroutine) {j : Nat} {g : Goroutine} (hj : gs[j]? = some g)
    (he' : g'.pc.expect = none) :
    TabInv code (rows.filter (fun r => r.Code ≠ code j)) (gs.set j g') where
  nodup := List.Nodup.sublist ((List.filter_sublist _).map _) hT.nodup
  owned := by
    intro r hr
    obtain ⟨hr1, hr2⟩ := List.mem_filter.1 hr
    have hne : r.Code ≠ code j := by simpa using hr2
    obtain ⟨j0, g0, hj0, hc0, he0⟩ := hT.owned r hr1
    have e : j0 ≠ j := by
      intro e
      subst e
      exact hne hc0
    exact ⟨j0, g0, by rw [List.getElem?_set_ne (Ne.symm e)]; exact hj0, hc0, he0⟩
  stored := by
    intro k x hk hx
    rcases getElem?_set_some hj hk with ⟨rfl, rfl⟩ | ⟨hkj, h⟩
    · rw [he'] at hx; cases hx
    · obtain ⟨r, hr, hc⟩ := hT.stored _ _ h hx
      refine ⟨r, List.mem_filter.2 ⟨hr, ?_⟩, hc⟩
      have : r.Code ≠ code j := by
        intro e
        exact hkj (hinj k j (by have := getElem?_lt h; omega)
          (by have := getElem?_lt hj; omega) (by rw [← hc, e]))
      simpa using this


theorem tinv_init (cfg : Config) (h : String) (code : Nat → String) (db : String → Table)
    (log : List Event) (hdb : (db h).rows = []) : TInv cfg h code (Sys.init ⟨db, log⟩) where
  base := inv_init cfg _
  alive := rfl
  calm := by
    refine ⟨?_, ?_⟩
    · intro g hg; simp [Sys.init] at hg
    · intro x hx; cases hx
  unit := by intro j g hj; simp [Sys.init] at hj
  table := by
    refine ⟨?_, ?_, ?_⟩
    · simp [Sys.init, hdb]
    · intro r hr; simp [Sys.init, hdb] at hr
    · intro j g hj; simp [Sys.init] at hj
  joined := by intro hm; rcases hm with hm | hm <;> cases hm
  printed := by intro hm; cases hm

theorem all_finished {cfg : Config} {h : String} {code : Nat → String}
    {s : Sys (String → Table)} (hT : TInv cfg h code s) (hz : s.pending = 0) :
    ∀ g ∈ s.gs, g.pc = .finished := by
  intro g hg
  have hz' : s.gs.countP (fun g => g.pc.pending) = 0 := hz
  have hp := List.countP_eq_zero.1 hz' g hg
  have hc := hT.calm.1 g hg
  cases hpc : g.pc <;> simp [hpc, PC.pending, PC.unwinding] at hp hc ⊢

theorem tinv_unit_step {cfg : Config} {h : String} {code : Nat → String}
    {s s' : Sys (String → Table)} {j : Nat} {g g' : Goroutine} (hT : TInv cfg h code s)
    (hj : s.gs[j]? = some g) (hpc : g.pc.pending = true) (hI : Inv cfg s')
    (hgs : s'.gs = s.gs.set j g') (hmain : s'.main = s.main) (hab : s'.aborted = s.aborted)
    (hcalm : g'.pc.unwinding = false)
    (hh : g'.host = h) (hcode : g'.pc ≠ .acquire → g'.pc ≠ .insert1 → g'.code = code j)
    (htab : TabInv code (s'.world.db h).rows (s.gs.set j g')) : TInv cfg h code s' := by
  have hpos := pending_pos hj hpc
  have hmain' : ¬ (s.main = .report ∨ s.main = .exited) := by
    intro hm
    have := hT.joined hm
    omega
  refine ⟨hI, by rw [hab]; exact hT.alive, ⟨?_, ?_⟩, ?_, by rw [hgs]; exact htab, ?_, ?_⟩
  · intro x hx
    rw [hgs] at hx
    rcases List.mem_or_eq_of_mem_set hx with hx' | rfl
    · exact hT.calm.1 x hx'
    · exact hcalm
  · intro x
    rw [hmain]
    exact hT.calm.2 x
  · intro k x hk
    rw [hgs] at hk
    rcases getElem?_set_some hj hk with ⟨rfl, rfl⟩ | ⟨_, hk'⟩
    · exact ⟨hh, hcode⟩
    · exact hT.unit _ _ hk'
  · intro hm
    rw [hmain] at hm
    exact absurd hm hmain'
  · intro hm
    rw [hmain] at hm
    exact absurd (Or.inr hm) hmain'

theorem final_count {code : Nat → String} {rows : List Test} {gs : List Goroutine} {R : Nat}
    (hT : TabInv code rows gs) (hinj : ∀ a b, a < R → b < R → code a = code b → a = b)
    (hlen : gs.length = R) (hfin : ∀ g ∈ gs, g.pc = .finished) : rows.length = R := by
  have h2 : ((List.range R).map code).Nodup := by
    apply List.Nodup.map_on _ (List.nodup_range R)
    intro a ha b hb hab
    exact hinj a b (List.mem_range.1 ha) (List.mem_range.1 hb) hab
  have hp : (rows.map (fun r => r.Code)).Perm ((List.range R).map code) := by
    rw [List.perm_ext_iff_of_nodup hT.nodup h2]
    intro c
    constructor
    · intro hc
      obtain ⟨r, hr, hrc⟩ := List.mem_map.1 hc
      obtain ⟨j0, g0, hj0, hc0, _⟩ := hT.owned r hr
      exact List.mem_map.2 ⟨j0, List.mem_range.2 (by have := getElem?_lt hj0; omega),
        by rw [← hc0, hrc]⟩
    · intro hc
      obtain ⟨j0, hj0, hjc⟩ := List.mem_map.1 hc
      have hlt : j0 < gs.length := by have := List.mem_range.1 hj0; omega
      have hg : gs[j0]? = some gs[j0] := List.getElem?_eq_getElem hlt
      have hf := hfin _ (List.getElem?_mem hg)
      obtain ⟨r, hr, hrc⟩ := hT.stored j0 _ hg (by rw [hf]; rfl)
      exact List.mem_map.2 ⟨r, hr, by rw [hrc, hjc]⟩
  have := hp.length_eq
  simpa using this

theorem stepMain_tinv {cfg : Config} {h : String} {code : Nat → String} {env : Nat → UnitEnv}
    {s s' : Sys (String → Table)} (hS : Setting cfg h code env) (hT : TInv cfg h code s)
    (h0 : stepMain cfg tableConn s = some s') : TInv cfg h code s' := by
  have hI' := stepMain_inv tableConn hT.base h0
  unfold stepMain at h0
  split at h0
  · -- the loop
    rename_i hm
    split at h0
    · dsimp only at h0
      simp only [hS.hosts, List.length_singleton, Nat.mod_one, List.getElem?_cons_zero] at h0
      cases h0
      refine ⟨hI', hT.alive, ⟨?_, ?_⟩, ?_, tabInv_launch hT.table rfl, ?_, ?_⟩
      · intro x hx
        rcases List.mem_append.1 hx with hx' | hx'
        · exact hT.calm.1 x hx'
        · simp only [List.mem_singleton] at hx'
          rw [hx']
          rfl
      · exact hT.calm.2
      · intro k x hk
        rcases getElem?_append_one hk with ⟨_, hk'⟩ | ⟨_, rfl⟩
        · exact hT.unit _ _ hk'
        · exact ⟨rfl, fun hne => absurd rfl hne⟩
      · intro hx
        rcases hx with hx | hx <;> · rw [hm] at hx; cases hx
      · intro hx
        rw [hm] at hx; cases hx
    · cases h0
      refine ⟨hI', hT.alive, ⟨hT.calm.1, ?_⟩, hT.unit, hT.table, ?_, ?_⟩
      · intro x hx
        cases hx
      · intro hx
        rcases hx with hx | hx <;> cases hx
      · intro hx
        cases hx
  · -- wg.Wait()
    split at h0
    · rename_i hwg
      cases h0
      refine ⟨hI', hT.alive, ⟨hT.calm.1, ?_⟩, hT.unit, hT.table, ?_, ?_⟩
      · intro x hx
        cases hx
      · intro _
        have := hT.base.wg
        show s.pending = 0
        omega
      · intro hx
        cases hx
    · cases h0
  · -- selectCount(hosts[0])
    rename_i hm
    simp only [hS.hosts, List.getElem?_cons_zero] at h0
    have hsc : selectCount tableConn h s.world =
        .ok ((s.world.db h).rows.length : Int)
          ⟨s.world.db, s.world.log ++ [⟨.Query, false⟩, ⟨.Scan, false⟩]⟩ :=
      selectCount_table h s.world.db s.world.log
    rw [hsc] at h0
    cases h0
    have hz := hT.joined (Or.inl hm)
    have hfin := all_finished hT hz
    have hR := final_count hT.table hS.inj
      (by rw [hT.base.len]; exact hT.base.left (Or.inr (Or.inl hm))) hfin
    refine ⟨hI', hT.alive, ⟨hT.calm.1, ?_⟩, hT.unit, hT.table, fun _ => hz, ?_⟩
    · intro x hx
      cases hx
    · intro _
      show some ((s.world.db h).rows.length : Int) = some (cfg.reqNum : Int)
      rw [hR]
  · -- a dying `main`
    rename_i x hm
    exact absurd hm (hT.calm.2 x)
  · cases h0

theorem stepUnit_tinv {cfg : Config} {h : String} {code : Nat → String} {env : Nat → UnitEnv}
    {s s' : Sys (String → Table)} {j : Nat} (hS : Setting cfg h code env)
    (hT : TInv cfg h code s) (h0 : stepUnit cfg tableConn env s j = some s') :
    TInv cfg h code s' := by
  have hI' := stepUnit_inv tableConn env hT.base h0
  unfold stepUnit at h0
  split at h0
  · cases h0
  · rename_i g hj
    have hlen : s.gs.length ≤ cfg.reqNum := by
      have := hT.base.len
      have := hT.base.le
      omega
    have hjR : j < cfg.reqNum := by
      have := getElem?_lt hj
      omega
    obtain ⟨hgh, hgc⟩ := hT.unit j g hj
    have hne : code j ≠ "" := by
      intro e
      have := hS.gen j hjR
      rw [e] at this
      exact generateUID_ne_empty _ _ this
    split at h0
    · -- sema <- 1
      rename_i hpc
      split at h0
      · cases h0
        exact tinv_unit_step hT hj (by rw [hpc]; rfl) hI' rfl rfl rfl rfl hgh (by simp)
          (tabInv_same hT.table hj (by simp [hpc, PC.expect]))
      · cases h0
    · -- code := insert(host, "")
      rename_i hpc
      obtain ⟨l1, hout⟩ := insert_table_fresh cfg.debug (env j).rnd1 (env j).now1 h (code j)
        s.world.db s.world.log (hS.gen j hjR)
      change insert tableConn cfg.debug (env j).rnd1 (env j).now1 h "" s.world = _ at hout
      rw [hgh] at h0
      rw [hout] at h0
      simp only [Sys.settle] at h0
      cases h0
      refine tinv_unit_step hT hj (by rw [hpc]; rfl) hI' rfl rfl rfl rfl rfl (fun _ _ => rfl) ?_
      have := tabInv_insert hT.table hS.inj hlen ⟨h, g.hostIndex, .updateExec, code j⟩ hj
        (by simp [hpc, PC.expect]) rfl (s.world.db h).nextID "test" (env j).now1
      simpa [Table.exec] using this
    · -- update(host, code): the statement
      rename_i hpc
      have hc : g.code = code j := hgc (by simp [hpc]) (by simp [hpc])
      obtain ⟨l1, hout⟩ := updateExec_table cfg.debug h (code j) s.world.db s.world.log
      change updateExec tableConn cfg.debug h (code j) s.world = _ at hout
      rw [hgh, hc] at h0
      rw [hout] at h0
      simp only [Sys.settle] at h0
      cases h0
      refine tinv_unit_step hT hj (by rw [hpc]; rfl) hI' rfl rfl rfl rfl rfl (fun _ _ => rfl) ?_
      have := tabInv_update hT.table ⟨h, g.hostIndex, .updateCheck, code j⟩ hj
        (by simp [hpc, PC.expect]) rfl
      simpa [Table.exec] using this
    · -- update(host, code): the re-read
      rename_i hpc
      have hc : g.code = code j := hgc (by simp [hpc]) (by simp [hpc])
      obtain ⟨r0, hr0, hr0c⟩ := hT.table.stored j g hj (by simp [hpc, PC.expect])
      have hmem : r0 ∈ matching s.world.db h (code j) := by
        simp only [matching, List.mem_filter]
        exact ⟨hr0, by simpa using hr0c⟩
      cases hm : matching s.world.db h (code j) with
      | nil => rw [hm] at hmem; cases hmem
      | cons r rest =>
        have hr : r ∈ (s.world.db h).rows ∧ r.Code = code j := by
          have : r ∈ matching s.world.db h (code j) := by rw [hm]; exact List.mem_cons_self _ _
          simp only [matching, List.mem_filter] at this
          exact ⟨this.1, by simpa using this.2⟩
        have hflag : r.IsTest = false := by
          have := tabInv_owner hT.table hS.inj hlen hj hr.1 hr.2
          rw [hpc] at this
          simp only [PC.expect, Option.some.injEq] at this
          exact this.symm
        obtain ⟨l1, hout⟩ := updateCheck_table h (code j) s.world.db s.world.log r rest hm hflag
        change updateCheck tableConn h (code j) s.world = _ at hout
        rw [hgh, hc] at h0
        rw [hout] at h0
        simp only [Sys.settle] at h0
        cases h0
        exact tinv_unit_step hT hj (by rw [hpc]; rfl) hI' rfl rfl rfl rfl rfl (fun _ _ => rfl)
          (tabInv_same hT.table hj (by simp [hpc, PC.expect]))
    · -- deleteOne(host, code)
      rename_i hpc
      have hc : g.code = code j := hgc (by simp [hpc]) (by simp [hpc])
      obtain ⟨l1, hout⟩ := deleteOne_table h (code j) s.world.db s.world.log
      change deleteOne tableConn h (code j) s.world = _ at hout
      rw [hgh, hc] at h0
      rw [hout] at h0
      simp only [Sys.settle] at h0
      cases h0
      refine tinv_unit_step hT hj (by rw [hpc]; rfl) hI' rfl rfl rfl rfl rfl (fun _ _ => rfl) ?_
      have := tabInv_delete hT.table hS.inj hlen ⟨h, g.hostIndex, .insert2, code j⟩ hj rfl
      simpa [Table.exec] using this
    · -- insert(host, code)
      rename_i hpc
      have hc : g.code = code j := hgc (by simp [hpc]) (by simp [hpc])
      obtain ⟨l1, hout⟩ := insert_table cfg.debug (env j).rnd2 (env j).now2 h (code j)
        s.world.db s.world.log hne
      change insert tableConn cfg.debug (env j).rnd2 (env j).now2 h (code j) s.world = _ at hout
      rw [hgh, hc] at h0
      rw [hout] at h0
      simp only [Sys.settle] at h0
      cases h0
      refine tinv_unit_step hT hj (by rw [hpc]; rfl) hI' rfl rfl rfl rfl rfl (fun _ _ => rfl) ?_
      have := tabInv_insert hT.table hS.inj hlen ⟨h, g.hostIndex, .release, code j⟩ hj
        (by simp [hpc, PC.expect]) rfl (s.world.db h).nextID "test" (env j).now2
      simpa [Table.exec] using this
    · -- <-sema
      rename_i hpc
      have hc : g.code = code j := hgc (by simp [hpc]) (by simp [hpc])
      split at h0
      · cases h0
        exact tinv_unit_step hT hj (by rw [hpc]; rfl) hI' rfl rfl rfl rfl hgh (fun _ _ => hc)
          (tabInv_same hT.table hj (by simp [hpc, PC.expect]))
      · cases h0
    · -- wg.Done()
      rename_i hpc
      have hc : g.code = code j := hgc (by simp [hpc]) (by simp [hpc])
      split at h0
      · cases h0
        exact tinv_unit_step hT hj (by rw [hpc]; rfl) hI' rfl rfl rfl rfl hgh (fun _ _ => hc)
          (tabInv_same hT.table hj (by simp [hpc, PC.expect]))
      · rename_i hwg
        have := pending_pos hj (by rw [hpc]; rfl)
        have := hT.base.wg
        omega
    · cases h0
    · rename_i x hpc
      have := hT.calm.1 g (List.getElem?_mem hj)
      rw [hpc] at this
      cases this
    · rename_i x hpc
      have := hT.calm.1 g (List.getElem?_mem hj)
      rw [hpc] at this
      cases this
    · rename_i x hpc
      have := hT.calm.1 g (List.getElem?_mem hj)
      rw [hpc] at this
      cases this

theorem step?_tinv {cfg : Config} {h : String} {code : Nat → String} {env : Nat → UnitEnv}
    {s s' : Sys (String → Table)} {a : Action} (hS : Setting cfg h code env)
    (hT : TInv cfg h code s) (h0 : step? cfg tableConn env s a = some s') :
    TInv cfg h code s' := by
  unfold step? at h0
  split at h0
  · cases h0
  · cases a with
    | main => exact stepMain_tinv hS hT h0
    | unit j => exact stepUnit_tinv hS hT h0

theorem runFrom_tinv {cfg : Config} {h : String} {code : Nat → String} {env : Nat → UnitEnv}
    (hS : Setting cfg h code env) (sched : List Action) :
    ∀ {s : Sys (String → Table)}, TInv cfg h code s →
      TInv cfg h code (runFrom cfg tableConn env s sched) := by
  induction sched with
  | nil => intro s hT; exact hT
  | cons a rest ih =>
    intro s hT
    apply ih
    unfold step
    cases h0 : step? cfg tableConn env s a with
    | none => exact hT
    | some s' => exact step?_tinv hS hT h0


theorem sum_map_set_dec {α : Type} (f : α → Nat) (g' : α) {l : List α} {j : Nat} {g : α}
    (hj : l[j]? = some g) (hr : f g' + 1 = f g) :
    ((l.set j g').map f).sum + 1 = (l.map f).sum := by
  have := sum_map_set f l j g g' hj
  omega

theorem mem_set_at {α : Type} {l : List α} {j : Nat} {g : α} (g' : α) (hj : l[j]? = some g) :
    g' ∈ l.set j g' :=
  List.getElem?_mem (List.getElem?_set_self (by
    rcases Nat.lt_or_ge j l.length with h | h
    · exact h
    · rw [List.getElem?_eq_none h] at hj; cases hj))

theorem mainFails_not_calm {σ : Type} (s : Sys σ) (x : Abort) (w : World σ)
    (ha : (s.mainFails x w).aborted = none) (hc : ∀ y, (s.mainFails x w).main ≠ .dying y) :
    False := by
  cases x with
  | panic err => exact hc _ rfl
  | fatal msg => cases ha

theorem stepMain_stepsLeft {cfg : Config} {σ : Type} (c : Conn σ) {s s' : Sys σ}
    (h : stepMain cfg c s = some s') (ha : s'.aborted = none)
    (hc : ∀ y, s'.main ≠ .dying y) : s'.stepsLeft cfg + 1 = s.stepsLeft cfg := by
  unfold stepMain at h
  split at h
  · rename_i hm
    split at h
    · rename_i hlt
      dsimp only at h
      split at h
      · cases h
        exact (mainFails_not_calm s _ _ ha hc).elim
      · cases h
        simp only [Sys.stepsLeft, hm, List.map_append, List.sum_append, List.map_cons,
          List.map_nil, List.sum_cons, List.sum_nil, PC.rank]
        omega
    · cases h
      simp only [Sys.stepsLeft, hm, MainPC.rank]
      omega
  · rename_i hm
    split at h
    · cases h
      simp only [Sys.stepsLeft, hm, MainPC.rank]
      omega
    · cases h
  · rename_i hm
    split at h
    · cases h
      exact (mainFails_not_calm s _ _ ha hc).elim
    · split at h
      · cases h
        simp only [Sys.stepsLeft, hm, MainPC.rank]
        omega
      · cases h
        exact (mainFails_not_calm s _ _ ha hc).elim
  · cases h
    cases ha
  · cases h

theorem settle_stepsLeft {cfg : Config} {σ α : Type} {s : Sys σ} {j : Nat} {g : Goroutine}
    (hj : s.gs[j]? = some g) (out : Outcome σ α) (next : α → Goroutine)
    (hr : ∀ a, (next a).pc.rank + 1 = g.pc.rank)
    (ha : (s.settle j g out next).aborted = none)
    (hc : ∀ x ∈ (s.settle j g out next).gs, x.pc.unwinding = false) :
    (s.settle j g out next).stepsLeft cfg + 1 = s.stepsLeft cfg := by
  cases out with
  | ok a w =>
    have := sum_map_set (fun g => g.pc.rank) s.gs j g (next a) hj
    have := hr a
    simp only [Sys.settle, Sys.stepsLeft] at *
    omega
  | abort x w =>
    cases x with
    | panic err =>
      have := hc _ (mem_set_at { g with pc := .unwindRelease (.panic err) } hj)
      cases this
    | fatal msg => cases ha

theorem stepUnit_stepsLeft {cfg : Config} {σ : Type} (c : Conn σ) (env : Nat → UnitEnv)
    {s s' : Sys σ} {j : Nat} (h : stepUnit cfg c env s j = some s')
    (ha : s'.aborted = none) (hc : ∀ x ∈ s'.gs, x.pc.unwinding = false) :
    s'.stepsLeft cfg + 1 = s.stepsLeft cfg := by
  unfold stepUnit at h
  split at h
  · cases h
  · rename_i g hj
    split at h
    · rename_i hpc
      split at h
      · cases h
        have := sum_map_set_dec (fun g => g.pc.rank) { g with pc := .insert1 } hj
          (by simp [hpc, PC.rank])
        simp only [Sys.stepsLeft]
        omega
      · cases h
    · rename_i hpc
      cases h
      exact settle_stepsLeft hj _ _ (fun _ => by simp [hpc, PC.rank]) ha hc
    · rename_i hpc
      cases h
      exact settle_stepsLeft hj _ _ (fun _ => by simp [hpc, PC.rank]) ha hc
    · rename_i hpc
      cases h
      exact settle_stepsLeft hj _ _ (fun _ => by simp [hpc, PC.rank]) ha hc
    · rename_i hpc
      cases h
      exact settle_stepsLeft hj _ _ (fun _ => by simp [hpc, PC.rank]) ha hc
    · rename_i hpc
      cases h
      exact settle_stepsLeft hj _ _ (fun _ => by simp [hpc, PC.rank]) ha hc
    · rename_i hpc
      split at h
      · cases h
        have := sum_map_set_dec (fun g => g.pc.rank) { g with pc := .wgDone } hj
          (by simp [hpc, PC.rank])
        simp only [Sys.stepsLeft]
        omega
      · cases h
    · rename_i hpc
      split at h
      · cases h
        have := sum_map_set_dec (fun g => g.pc.rank) { g with pc := .finished } hj
          (by simp [hpc, PC.rank])
        simp only [Sys.stepsLeft]
        omega
      · cases h
        have := hc _ (mem_set_at
          { g with pc := .dying (.panic (.other "sync: negative WaitGroup counter")) } hj)
        cases this
    · cases h
    · rename_i x hpc
      split at h
      · cases h
        have := hc _ (mem_set_at { g with pc := .unwindDone x } hj)
        cases this
      · cases h
    · rename_i x hpc
      split at h
      · cases h
        have := hc _ (mem_set_at { g with pc := .dying x } hj)
        cases this
      · cases h
        have := hc _ (mem_set_at
          { g with pc := .dying (.panic (.other "sync: negative WaitGroup counter")) } hj)
        cases this
    · cases h
      cases ha

/-- A step that leaves no party panicking and the process alive takes one of
the steps left. -/
theorem step?_stepsLeft {cfg : Config} {σ : Type} (c : Conn σ) (env : Nat → UnitEnv)
    {s s' : Sys σ} {a : Action} (h : step? cfg c env s a = some s') (ha : s'.aborted = none)
    (hc : (∀ x ∈ s'.gs, x.pc.unwinding = false) ∧ ∀ y, s'.main ≠ .dying y) :
    s'.stepsLeft cfg + 1 = s.stepsLeft cfg := by
  unfold step? at h
  split at h
  · cases h
  · cases a with
    | main => exact stepMain_stepsLeft c h ha hc.2
    | unit j => exact stepUnit_stepsLeft c env h ha hc.1

/-- In a state that is not aborted and in which `main` has not returned, some
party can take a step, provided the channel has room for one value. -/
theorem progress {cfg : Config} {σ : Type} (c : Conn σ) (env : Nat → UnitEnv) {s : Sys σ}
    (hI : Inv cfg s) (hpar : 1 ≤ cfg.parallelNum) (hs : s.aborted = none)
    (hm : s.main ≠ .exited) : ∃ a, (step? cfg c env s a).isSome = true := by
  have hgate : (s.aborted.isSome || decide (s.main = .exited)) = false := by
    simp [hs, hm]
  by_cases hmain : ∃ s', stepMain cfg c s = some s'
  · obtain ⟨s', hs'⟩ := hmain
    exact ⟨.main, by simp [step?, hgate, hs']⟩
  · -- `main` is blocked: it waits for the goroutines
    have hwait : s.main = .wait ∧ s.wg ≠ 0 := by
      unfold stepMain at hmain
      split at hmain
      · exfalso; apply hmain
        split
        · dsimp only
          split <;> exact ⟨_, rfl⟩
        · exact ⟨_, rfl⟩
      · rename_i hw
        split at hmain
        · exact absurd ⟨_, rfl⟩ hmain
        · rename_i hwg
          exact ⟨hw, hwg⟩
      · exfalso; apply hmain
        split
        · exact ⟨_, rfl⟩
        · split <;> exact ⟨_, rfl⟩
      · exact absurd ⟨_, rfl⟩ hmain
      · rename_i he
        exact absurd he hm
    have hfl : 0 < s.pending := by
      have := hI.wg
      omega
    obtain ⟨g, hg, hgp⟩ := List.countP_pos_iff.1 hfl
    have hgp' : g.pc ≠ .finished := by
      intro e
      rw [e] at hgp
      cases hgp
    obtain ⟨j, hj⟩ := List.getElem?_of_mem hg
    by_cases hbusy : ∃ (j' : Nat) (g' : Goroutine),
        s.gs[j']? = some g' ∧ g'.pc ≠ .finished ∧ g'.pc ≠ .acquire
    · obtain ⟨j', g', hj', hf', ha'⟩ := hbusy
      refine ⟨.unit j', ?_⟩
      simp only [step?, hgate, Bool.false_eq_true, if_false, stepUnit, hj']
      cases hpc : g'.pc with
      | acquire => exact absurd hpc ha'
      | finished => exact absurd hpc hf'
      | release =>
        have hp := holding_pos hj' (by rw [hpc]; rfl)
        have := hI.sema
        simp only [show 0 < s.sema by omega, if_true, Option.isSome_some]
      | wgDone => simp only []; split <;> rfl
      | insert1 => rfl
      | updateExec => rfl
      | updateCheck => rfl
      | delete => rfl
      | insert2 => rfl
      | unwindRelease x =>
        have hp := holding_pos hj' (by rw [hpc]; rfl)
        have := hI.sema
        simp only [show 0 < s.sema by omega, if_true, Option.isSome_some]
      | unwindDone x => simp only []; split <;> rfl
      | dying x => rfl
    · -- every unfinished goroutine waits for a slot, so the channel is empty
      have hnone : ∀ x ∈ s.gs, x.pc.holdsSlot = false := by
        intro x hx
        obtain ⟨k, hk⟩ := List.getElem?_of_mem hx
        cases hpc : x.pc with
        | acquire => rfl
        | finished => rfl
        | wgDone => rfl
        | insert1 => exact absurd ⟨k, x, hk, by simp [hpc], by simp [hpc]⟩ hbusy
        | updateExec => exact absurd ⟨k, x, hk, by simp [hpc], by simp [hpc]⟩ hbusy
        | updateCheck => exact absurd ⟨k, x, hk, by simp [hpc], by simp [hpc]⟩ hbusy
        | delete => exact absurd ⟨k, x, hk, by simp [hpc], by simp [hpc]⟩ hbusy
        | insert2 => exact absurd ⟨k, x, hk, by simp [hpc], by simp [hpc]⟩ hbusy
        | release => exact absurd ⟨k, x, hk, by simp [hpc], by simp [hpc]⟩ hbusy
        | unwindRelease y => exact absurd ⟨k, x, hk, by simp [hpc], by simp [hpc]⟩ hbusy
        | unwindDone y => rfl
        | dying y => rfl
      have hzero : s.holding = 0 := by
        unfold Sys.holding
        rw [List.countP_eq_zero]
        intro x hx
        simp [hnone x hx]
      have hacq : g.pc = .acquire := by
        by_contra hne
        exact hbusy ⟨j, g, hj, hgp', hne⟩
      refine ⟨.unit j, ?_⟩
      have hsema : s.sema < cfg.parallelNum := by
        have := hI.sema
        omega
      simp [step?, hgate, stepUnit, hj, hacq, hsema]


theorem run_append {cfg : Config} {σ : Type} (c : Conn σ) (env : Nat → UnitEnv) (w : World σ)
    (l₁ l₂ : List Action) :
    run cfg c env w (l₁ ++ l₂) = runFrom cfg c env (run cfg c env w l₁) l₂ := by
  simp [run, runFrom, List.foldl_append]

theorem exists_completion {cfg : Config} {h : String} {code : Nat → String}
    {env : Nat → UnitEnv} (hS : Setting cfg h code env) (hpar : 1 ≤ cfg.parallelNum) :
    ∀ (n : Nat) (s : Sys (String → Table)), TInv cfg h code s → s.stepsLeft cfg = n →
      ∃ rest, (runFrom cfg tableConn env s rest).main = .exited := by
  intro n
  induction n with
  | zero =>
    intro s _ hn
    refine ⟨[], ?_⟩
    simp only [Sys.stepsLeft] at hn
    have : s.main.rank = 0 := by omega
    show s.main = .exited
    cases hm : s.main <;> simp [hm, MainPC.rank] at this
    rfl
  | succ n ih =>
    intro s hT hn
    by_cases hm : s.main = .exited
    · exact ⟨[], hm⟩
    · obtain ⟨a, ha⟩ := progress tableConn env hT.base hpar hT.alive hm
      obtain ⟨s', hs'⟩ := Option.isSome_iff_exists.1 ha
      have hT' := step?_tinv hS hT hs'
      have hdec := step?_stepsLeft tableConn env hs' hT'.alive hT'.calm
      obtain ⟨rest, hrest⟩ := ih s' hT' (by omega)
      refine ⟨a :: rest, ?_⟩
      simp only [runFrom, List.foldl_cons, step, hs', Option.getD_some]
      exact hrest

theorem valid_stepsLeft {cfg : Config} {h : String} {code : Nat → String}
    {env : Nat → UnitEnv} (hS : Setting cfg h code env) (sched : List Action) :
    ∀ (s : Sys (String → Table)), TInv cfg h code s →
      validFrom cfg tableConn env s sched = true →
      sched.length + (runFrom cfg tableConn env s sched).stepsLeft cfg = s.stepsLeft cfg := by
  induction sched with
  | nil => intro s _ _; simp [runFrom]
  | cons a rest ih =>
    intro s hT hv
    unfold validFrom at hv
    cases hs' : step? cfg tableConn env s a with
    | none => simp [hs'] at hv
    | some s' =>
      simp only [hs'] at hv
      have hT' := step?_tinv hS hT hs'
      have hdec := step?_stepsLeft tableConn env hs' hT'.alive hT'.calm
      have := ih s' hT' hv
      simp only [runFrom, List.foldl_cons, step, hs', Option.getD_some, List.length_cons] at this ⊢
      omega

/-- C4. With a single host, a gate of capacity at least one, an empty table and
pairwise distinct generated codes, for every schedule: the process is never
aborted; once `main` has returned, the count it printed is `reqNum` and the
table holds `reqNum` rows; before that some party can always take a step, and
the schedule extends to one after which `main` has returned. A schedule of
steps that were all possible has at most `9 * reqNum + 3` steps, and one with
that many steps has run `main` to its end. -/
theorem run_completes (cfg : Config) (h : String) (code : Nat → String) (env : Nat → UnitEnv)
    (db : String → Table) (log : List Event) (sched : List Action)
    (hhosts : cfg.hosts = [h]) (hpar : 1 ≤ cfg.parallelNum) (hempty : (db h).rows = [])
    (hgen : ∀ j, j < cfg.reqNum →
      generateUID (env j).rnd1.unix (env j).rnd1.read = .ok (code j))
    (hinj : ∀ a b, a < cfg.reqNum → b < cfg.reqNum → code a = code b → a = b) :
    (run cfg tableConn env ⟨db, log⟩ sched).aborted = none ∧
      ((run cfg tableConn env ⟨db, log⟩ sched).main = .exited →
        (run cfg tableConn env ⟨db, log⟩ sched).count = some (cfg.reqNum : Int) ∧
        ((run cfg tableConn env ⟨db, log⟩ sched).world.db h).rows.length = cfg.reqNum) ∧
      ((run cfg tableConn env ⟨db, log⟩ sched).main ≠ .exited →
        ∃ a, (step? cfg tableConn env (run cfg tableConn env ⟨db, log⟩ sched) a).isSome = true) ∧
      (∃ rest, (run cfg tableConn env ⟨db, log⟩ (sched ++ rest)).main = .exited) ∧
      (validFrom cfg tableConn env (Sys.init ⟨db, log⟩) sched = true →
        sched.length ≤ 9 * cfg.reqNum + 3 ∧
        (sched.length = 9 * cfg.reqNum + 3 →
          (run cfg tableConn env ⟨db, log⟩ sched).main = .exited)) := by
  have hS : Setting cfg h code env := ⟨hhosts, hgen, hinj⟩
  have h0 : TInv cfg h code (Sys.init ⟨db, log⟩) := tinv_init cfg h code db log hempty
  have hT : TInv cfg h code (run cfg tableConn env ⟨db, log⟩ sched) := runFrom_tinv hS sched h0
  refine ⟨hT.alive, ?_, ?_, ?_, ?_⟩
  · intro hm
    refine ⟨hT.printed hm, ?_⟩
    have hz := hT.joined (Or.inr hm)
    have hfin := all_finished hT hz
    exact final_count hT.table hinj
      (by rw [hT.base.len]; exact hT.base.left (Or.inr (Or.inr hm))) hfin
  · intro hm
    exact progress tableConn env hT.base hpar hT.alive hm
  · obtain ⟨rest, hrest⟩ := exists_completion hS hpar _ _ hT rfl
    exact ⟨rest, by rw [run_append]; exact hrest⟩
  · intro hv
    have hsum := valid_stepsLeft hS sched _ h0 hv
    have hinit : (Sys.init (⟨db, log⟩ : World (String → Table))).stepsLeft cfg
        = 9 * cfg.reqNum + 3 := by
      simp [Sys.stepsLeft, Sys.init, MainPC.rank]
      omega
    rw [hinit] at hsum
    refine ⟨by omega, ?_⟩
    intro hl
    have hz : (run cfg tableConn env ⟨db, log⟩ sched).stepsLeft cfg = 0 := by
      simp only [run]
      omega
    simp only [Sys.stepsLeft] at hz
    have hr : (run cfg tableConn env ⟨db, log⟩ sched).main.rank = 0 := by omega
    cases hm : (run cfg tableConn env ⟨db, log⟩ sched).main <;>
      simp [hm, MainPC.rank] at hr
    rfl

theorem demoCode_inj (a b : Nat) (ha : a < 50) (hb : b < 50) (h : demoCode a = demoCode b) :
    a = b := by
  have e := generateUID_inj 1700000000 1700000000
    (List.replicate 10 (⟨a % 256, Nat.mod_lt _ (by decide)⟩ : Byte))
    (List.replicate 10 (⟨b % 256, Nat.mod_lt _ (by decide)⟩ : Byte)) (by simp) (by simp)
  have hg : generateUID 1700000000
      (.ok (List.replicate 10 (⟨a % 256, Nat.mod_lt _ (by decide)⟩ : Byte)))
      = generateUID 1700000000
        (.ok (List.replicate 10 (⟨b % 256, Nat.mod_lt _ (by decide)⟩ : Byte))) := by
    have ta : (List.replicate 10 (⟨a % 256, Nat.mod_lt _ (by decide)⟩ : Byte)).take 10
        = List.replicate 10 ⟨a % 256, Nat.mod_lt _ (by decide)⟩ := by simp
    have tb : (List.replicate 10 (⟨b % 256, Nat.mod_lt _ (by decide)⟩ : Byte)).take 10
        = List.replicate 10 ⟨b % 256, Nat.mod_lt _ (by decide)⟩ := by simp
    simp only [generateUID, ta, tb]
    exact congrArg Except.ok h
  have := (e hg).2
  have h0 := congrArg (fun l => l.head?) this
  simp at h0
  omega

/-- The statement of C4 for 50 requests, parallelism 5 and a single host, at the
start of the run. -/
theorem run_completes_witness :
    (run ⟨["h"], 50, 5, false⟩ tableConn demoEnv ⟨fun _ => Table.empty, []⟩ []).aborted = none ∧
      ((run ⟨["h"], 50, 5, false⟩ tableConn demoEnv ⟨fun _ => Table.empty, []⟩ []).main = .exited →
        (run ⟨["h"], 50, 5, false⟩ tableConn demoEnv ⟨fun _ => Table.empty, []⟩ []).count
          = some ((50 : Nat) : Int) ∧
        ((run ⟨["h"], 50, 5, false⟩ tableConn demoEnv ⟨fun _ => Table.empty, []⟩ []).world.db
          "h").rows.length = 50) ∧
      ((run ⟨["h"], 50, 5, false⟩ tableConn demoEnv ⟨fun _ => Table.empty, []⟩ []).main ≠ .exited →
        ∃ a, (step? ⟨["h"], 50, 5, false⟩ tableConn demoEnv
          (run ⟨["h"], 50, 5, false⟩ tableConn demoEnv ⟨fun _ => Table.empty, []⟩ []) a).isSome
            = true) ∧
      (∃ rest, (run ⟨["h"], 50, 5, false⟩ tableConn demoEnv ⟨fun _ => Table.empty, []⟩
        ([] ++ rest)).main = .exited) ∧
      (validFrom ⟨["h"], 50, 5, false⟩ tableConn demoEnv
          (Sys.init ⟨fun _ => Table.empty, []⟩) [] = true →
        ([] : List Action).length ≤ 9 * 50 + 3 ∧
        (([] : List Action).length = 9 * 50 + 3 →
          (run ⟨["h"], 50, 5, false⟩ tableConn demoEnv ⟨fun _ => Table.empty, []⟩ []).main
            = .exited)) :=
  run_completes ⟨["h"], 50, 5, false⟩ "h" demoCode demoEnv (fun _ => Table.empty) [] [] rfl
    (by decide) rfl (fun _ _ => rfl) demoCode_inj


/-! ## Theorems: the steps of a goroutine and the body of `load` -/

theorem bind_assoc_run {σ α β γ : Type} (m : Run σ α) (f : α → Run σ β) (k : β → Run σ γ) :
    Run.bind (Run.bind m f) k = Run.bind m (fun a => Run.bind (f a) k) := by
  funext w
  simp only [Run.bind]
  cases m w <;> rfl

theorem settle_run {cfg : Config} {σ α : Type} (c : Conn σ) (env : Nat → UnitEnv) {s : Sys σ}
    {j n : Nat} {g : Goroutine} (hj : s.gs[j]? = some g) (ha : s.aborted = none)
    (hm : s.main ≠ .exited) (out : Outcome σ α) (next : α → Goroutine)
    (rest : α → Run σ Unit) (w : World σ)
    (hnext : ∀ a, (next a).pc.bodySteps = n)
    (ih : ∀ (s1 : Sys σ) (g1 : Goroutine), s1.gs[j]? = some g1 → g1.pc.bodySteps = n →
      s1.aborted = none → s1.main ≠ .exited →
      loadFrom c cfg.debug (env j) g1.host g1.pc g1.code s1.world = .ok () w →
      (runFrom cfg c env s1 (List.replicate n (.unit j))).world = w ∧
        (runFrom cfg c env s1 (List.replicate n (.unit j))).aborted = none)
    (hrest : ∀ a w1, loadFrom c cfg.debug (env j) (next a).host (next a).pc (next a).code w1
      = rest a w1)
    (hret : (match out with
             | .ok a w1 => rest a w1
             | .abort x w1 => .abort x w1) = .ok () w) :
    (runFrom cfg c env (s.settle j g out next) (List.replicate n (.unit j))).world = w ∧
      (runFrom cfg c env (s.settle j g out next) (List.replicate n (.unit j))).aborted
        = none := by
  cases out with
  | ok a w1 =>
    exact ih { s with world := w1, gs := s.gs.set j (next a) } (next a)
      (getElem?_set_at (next a) hj) (hnext a) ha hm (by rw [hrest a w1]; exact hret)
  | abort x w1 => cases hret

theorem unit_steps_eq_loadFrom {cfg : Config} {σ : Type} (c : Conn σ) (env : Nat → UnitEnv)
    (j : Nat) (w : World σ) : ∀ (n : Nat) (s : Sys σ) (g : Goroutine), s.gs[j]? = some g →
      g.pc.bodySteps = n → s.aborted = none → s.main ≠ .exited →
      loadFrom c cfg.debug (env j) g.host g.pc g.code s.world = .ok () w →
      (runFrom cfg c env s (List.replicate n (.unit j))).world = w ∧
        (runFrom cfg c env s (List.replicate n (.unit j))).aborted = none := by
  intro n
  induction n with
  | zero =>
    intro s g _ hn ha _ hret
    have hl : loadFrom c cfg.debug (env j) g.host g.pc g.code = Run.pure () := by
      cases hpc : g.pc <;> simp [hpc, PC.bodySteps] at hn <;> rfl
    rw [hl] at hret
    cases hret
    exact ⟨rfl, ha⟩
  | succ n ih =>
    intro s g hj hn ha hm hret
    have hgate : (s.aborted.isSome || decide (s.main = .exited)) = false := by
      simp [ha, hm]
    simp only [List.replicate_succ, runFrom, List.foldl_cons]
    cases hpc : g.pc with
    | acquire => simp [hpc, PC.bodySteps] at hn
    | release => simp [hpc, PC.bodySteps] at hn
    | wgDone => simp [hpc, PC.bodySteps] at hn
    | finished => simp [hpc, PC.bodySteps] at hn
    | unwindRelease x => simp [hpc, PC.bodySteps] at hn
    | unwindDone x => simp [hpc, PC.bodySteps] at hn
    | dying x => simp [hpc, PC.bodySteps] at hn
    | insert1 =>
      have hs : step cfg c env s (.unit j) = s.settle j g
          (insert c cfg.debug (env j).rnd1 (env j).now1 g.host "" s.world)
          (fun code => { g with code := code, pc := .updateExec }) := by
        simp [step, step?, hgate, stepUnit, hj, hpc]
      rw [hs]
      refine settle_run c env hj ha hm _ _
        (fun code => loadFrom c cfg.debug (env j) g.host .updateExec code) w
        (fun _ => by rw [hpc] at hn; simp only [PC.bodySteps] at hn ⊢; omega)
        ih (fun _ _ => rfl) ?_
      rw [hpc] at hret
      simp only [loadFrom, loadBody, update, run_bind, run_pure, bind_assoc_run] at hret ⊢
      simp only [Run.bind] at hret ⊢
      cases hop : insert c cfg.debug (env j).rnd1 (env j).now1 g.host "" s.world <;>
        simp only [hop] at hret ⊢ <;> exact hret
    | updateExec =>
      have hs : step cfg c env s (.unit j) = s.settle j g
          (updateExec c cfg.debug g.host g.code s.world)
          (fun _ => { g with pc := .updateCheck }) := by
        simp [step, step?, hgate, stepUnit, hj, hpc]
      rw [hs]
      refine settle_run c env hj ha hm _ _
        (fun _ => loadFrom c cfg.debug (env j) g.host .updateCheck g.code) w
        (fun _ => by rw [hpc] at hn; simp only [PC.bodySteps] at hn ⊢; omega)
        ih (fun _ _ => rfl) ?_
      rw [hpc] at hret
      simp only [loadFrom, run_bind, run_pure] at hret ⊢
      simp only [Run.bind] at hret ⊢
      cases hop : updateExec c cfg.debug g.host g.code s.world <;>
        simp only [hop] at hret ⊢ <;> exact hret
    | updateCheck =>
      have hs : step cfg c env s (.unit j) = s.settle j g
          (updateCheck c g.host g.code s.world)
          (fun _ => { g with pc := .delete }) := by
        simp [step, step?, hgate, stepUnit, hj, hpc]
      rw [hs]
      refine settle_run c env hj ha hm _ _
        (fun _ => loadFrom c cfg.debug (env j) g.host .delete g.code) w
        (fun _ => by rw [hpc] at hn; simp only [PC.bodySteps] at hn ⊢; omega)
        ih (fun _ _ => rfl) ?_
      rw [hpc] at hret
      simp only [loadFrom, run_bind, run_pure] at hret ⊢
      simp only [Run.bind] at hret ⊢
      cases hop : updateCheck c g.host g.code s.world <;>
        simp only [hop] at hret ⊢ <;> exact hret
    | delete =>
      have hs : step cfg c env s (.unit j) = s.settle j g
          (deleteOne c g.host g.code s.world)
          (fun _ => { g with pc := .insert2 }) := by
        simp [step, step?, hgate, stepUnit, hj, hpc]
      rw [hs]
      refine settle_run c env hj ha hm _ _
        (fun _ => loadFrom c cfg.debug (env j) g.host .insert2 g.code) w
        (fun _ => by rw [hpc] at hn; simp only [PC.bodySteps] at hn ⊢; omega)
        ih (fun _ _ => rfl) ?_
      rw [hpc] at hret
      simp only [loadFrom, run_bind, run_pure] at hret ⊢
      simp only [Run.bind] at hret ⊢
      cases hop : deleteOne c g.host g.code s.world <;>
        simp only [hop] at hret ⊢ <;> exact hret
    | insert2 =>
      have hs : step cfg c env s (.unit j) = s.settle j g
          (insert c cfg.debug (env j).rnd2 (env j).now2 g.host g.code s.world)
          (fun _ => { g with pc := .release }) := by
        simp [step, step?, hgate, stepUnit, hj, hpc]
      rw [hs]
      refine settle_run c env hj ha hm _ _
        (fun _ => Run.pure ()) w
        (fun _ => by rw [hpc] at hn; simp only [PC.bodySteps] at hn ⊢; omega)
        ih (fun _ _ => rfl) ?_
      rw [hpc] at hret
      simp only [loadFrom, run_bind, run_pure] at hret ⊢
      simp only [Run.bind] at hret ⊢
      cases hop : insert c cfg.debug (env j).rnd2 (env j).now2 g.host g.code s.world <;>
        simp only [hop] at hret ⊢ <;> exact hret

/-- When the body of `load` returns normally, the five steps a goroutine takes
between acquiring and releasing its slot, run one after the other, leave the
store as the body does, and the process is not aborted. -/
theorem unit_steps_eq_loadBody {cfg : Config} {σ : Type} (c : Conn σ) (env : Nat → UnitEnv)
    (j : Nat) (s : Sys σ) (g : Goroutine) (w : World σ) (hj : s.gs[j]? = some g)
    (hpc : g.pc = .insert1) (ha : s.aborted = none) (hm : s.main ≠ .exited)
    (hret : loadBody c cfg.debug (env j) g.host s.world = .ok () w) :
    (runFrom cfg c env s (List.replicate 5 (.unit j))).world = w ∧
      (runFrom cfg c env s (List.replicate 5 (.unit j))).aborted = none := by
  have h5 : (runFrom cfg c env s (List.replicate 5 (.unit j))).world = w ∧
      (runFrom cfg c env s (List.replicate 5 (.unit j))).aborted = none :=
    unit_steps_eq_loadFrom c env j w 5 s g hj (by rw [hpc]; rfl) ha hm
      (by rw [hpc]; exact hret)
  exact h5

end LoadTest
